import Mathlib

/-!
Verification of the schema-transformation engine of prisma-generator-zero.

The definitions below are a shallow embedding of src/mappers/schemaMapper.ts.
JavaScript objects used as ordered string-keyed maps are embedded as
association lists (`List (String × _)`) with JS insertion semantics
(`jsInsert`: an existing key keeps its position and gets the new value, a new
key is appended).  JavaScript truthiness of optional strings (`undefined`,
`null` and `""` are falsy) is embedded by `truthy` / `jsOrStr` / `jsOrOpt`.
Functions that can `throw` are embedded in `Except String`.

Two leaves of the system are not part of the provided sources and are
modelled from the spec (their doc comments say so): the type mapper
(mappers/typeMapper.ts, spec section 4.2) and the camel-case conversion of the
external change-case library (spec section 4.1).  The locale-dependent
JavaScript `localeCompare` ordering is embedded as ordinal string comparison,
which the spec's design notes prescribe ("locale-independent ordinal string
comparison").
-/

namespace PGZero

/-- ASCII lowercase letter test (the basic-latin range used by the JS string
case functions). -/
def isLow (c : Char) : Bool := 97 ≤ c.toNat && c.toNat ≤ 122

/-- ASCII uppercase letter test. -/
def isUp (c : Char) : Bool := 65 ≤ c.toNat && c.toNat ≤ 90

/-- ASCII digit test. -/
def isDig (c : Char) : Bool := 48 ≤ c.toNat && c.toNat ≤ 57

/-- ASCII alphanumeric test. -/
def isAlnum (c : Char) : Bool := isLow c || isUp c || isDig c

/-- Lowercase an ASCII uppercase letter, leave everything else unchanged. -/
def low (c : Char) : Char := if isUp c then Char.ofNat (c.toNat + 32) else c

/-- Uppercase an ASCII lowercase letter, leave everything else unchanged. -/
def up (c : Char) : Char := if isLow c then Char.ofNat (c.toNat - 32) else c

/-- Modelled from the spec: the camel-case conversion of the external
change-case library (imported by schemaMapper.ts, not part of the provided
sources).  Spec section 4.1: maximal alphanumeric words are obtained by
stripping non-alphanumeric separators and by cutting at existing camel-case
boundaries (a lowercase letter or digit followed by an uppercase letter);
the first word is fully lowercased, every later word is lowercased and its
first character uppercased.  The state is: `started` records whether a word
character was already emitted, `pending` records that a separator was seen,
`prev` is the immediately preceding input character. -/
def camelGo (started : Bool) (pending : Bool) (prev : Option Char) : List Char → List Char
  | [] => []
  | c :: cs =>
    if isAlnum c then
      (if started && (pending || ((prev.map (fun p => (isLow p || isDig p) && isUp c)).getD false))
        then up c else low c) :: camelGo true false (some c) cs
    else
      camelGo started true (some c) cs

/-- The camel-case conversion on character lists. -/
def camelList (l : List Char) : List Char := camelGo false false none l

/-- The camel-case conversion on strings (the `camelCase` import of
schemaMapper.ts, modelled from the spec). -/
def camelCase (s : String) : String := (camelList s.toList).asString

/-- Ordinal (code-point) lexicographic comparison of character lists,
embedding the JS ordinal string comparison used by the default array sort and
(per the spec's design notes, which prescribe locale-independent ordinal
comparison) by the localeCompare call sites. -/
def lexLt : List Char → List Char → Bool
  | [], [] => false
  | [], _ :: _ => true
  | _ :: _, [] => false
  | a :: as, b :: bs =>
    if a.toNat < b.toNat then true
    else if b.toNat < a.toNat then false
    else lexLt as bs

/-- Ordinal string comparison (JS `a < b` on strings). -/
def strLt (a b : String) : Bool := lexLt a.toList b.toList

/-- JS truthiness of an optional string: `undefined` and `""` are falsy. -/
def truthy : Option String → Bool
  | none => false
  | some s => s != ""

/-- JS `a || b` for strings. -/
def jsOrStr (a b : String) : String := if a = "" then b else a

/-- JS `o || d` for an optional string `o` and a default `d`. -/
def jsOrOpt (o : Option String) (d : String) : String := jsOrStr (o.getD "") d

/-- JS conditional spread `...(o && { k: o })`: keep the value only when
truthy. -/
def optTruthy (o : Option String) : Option String := if truthy o then o else none

/-- Lookup in an association list embedding a JS object (first, i.e. only,
binding of the key). -/
def jsLookup {α : Type} : List (String × α) → String → Option α
  | [], _ => none
  | (k, v) :: rest, key => if k = key then some v else jsLookup rest key

/-- JS object assignment `obj[key] = v`: an existing key keeps its position
and gets the new value, a new key is appended. -/
def jsInsert {α : Type} (l : List (String × α)) (key : String) (v : α) : List (String × α) :=
  if l.any (fun p => p.1 == key) then l.map (fun p => if p.1 = key then (key, v) else p)
  else l ++ [(key, v)]

/-- Field descriptor of the input document (DMMF.Field, restricted to the
members that schemaMapper.ts reads).  `relationFromFields`/`relationToFields`
use `[]` for the absent value: the source only ever tests their lengths or
spreads them with a `[]` default, so `undefined` and `[]` are
indistinguishable there. -/
structure Field where
  name : String
  type : String
  kind : String
  isRequired : Bool
  isList : Bool
  isId : Bool
  dbName : Option String
  relationName : Option String
  relationFromFields : List String
  relationToFields : List String
deriving DecidableEq

/-- Declared composite primary key of a model (DMMF `primaryKey`). -/
structure PrimaryKeyDecl where
  fields : List String
deriving DecidableEq

/-- Model descriptor of the input document (DMMF.Model, restricted to the
members that schemaMapper.ts reads). -/
structure Model where
  name : String
  dbName : Option String
  fields : List Field
  primaryKey : Option PrimaryKeyDecl
deriving DecidableEq

/-- Enum descriptor; transformSchema passes enums through unmodified. -/
structure PEnum where
  name : String
  values : List String
deriving DecidableEq

/-- The input document (DMMF.Document's datamodel). -/
structure Document where
  models : List Model
  enums : List PEnum
deriving DecidableEq

/-- Generator configuration (the members read by schemaMapper.ts).
`excludeTables` is `[]` for the absent value: the source only calls
`config.excludeTables?.includes(...)`, so `undefined` and `[]` are
indistinguishable. -/
structure Config where
  excludeTables : List String
  remapTablesToCamelCase : Bool
  remapColumnsToCamelCase : Bool
deriving DecidableEq

/-- Result of the type mapper: target type expression and optionality. -/
structure ZeroBaseTypeMapping where
  type : String
  isOptional : Bool
deriving DecidableEq

/-- Column mapping of the transformed model (types.ts ZeroTypeMapping):
the base mapping plus the resolved column name and the optional original
source column name. -/
structure ZeroTypeMapping where
  type : String
  isOptional : Bool
  columnName : String
  originalColumnName : Option String
deriving DecidableEq

/-- One link of a many-to-many relationship chain (types.ts
ZeroRelationshipLink). -/
structure ZeroRelationshipLink where
  sourceField : List String
  destField : List String
  destSchema : String
deriving DecidableEq

/-- Relationship cardinality tag ("one" | "many"). -/
inductive RelKind where
  | one
  | many
deriving DecidableEq

/-- Relationship descriptor (types.ts ZeroRelationship): either a direct
link (sourceField, destField, destSchema) or a chain of links. -/
inductive ZeroRelationship where
  | direct : RelKind → List String → List String → String → ZeroRelationship
  | chain : RelKind → List ZeroRelationshipLink → ZeroRelationship
deriving DecidableEq

/-- Transformed model (types.ts ZeroModel, the members produced by
schemaMapper.ts). -/
structure ZeroModel where
  tableName : String
  originalTableName : Option String
  modelName : String
  zeroTableName : String
  columns : List (String × ZeroTypeMapping)
  relationships : Option (List (String × ZeroRelationship))
  primaryKey : List String
deriving DecidableEq

/-- The assembled intermediate representation (types.ts TransformedSchema). -/
structure TransformedSchema where
  models : List ZeroModel
  enums : List PEnum
deriving DecidableEq

/-- Modelled from the spec: mappers/typeMapper.ts is not part of the provided
sources.  Spec section 4.2: a fixed primitive lookup table (string, boolean,
number, timestamp as number, generic json), enum fields get a type expression
parameterized by the enum type name, unknown primitive kinds default to the
string type, and the optionality flag is the inverse of the required flag. -/
def mapPrismaTypeToZero (field : Field) : ZeroBaseTypeMapping :=
  { type :=
      if field.kind == "enum" then "enumeration<" ++ field.type ++ ">()"
      else if field.type == "String" then "string()"
      else if field.type == "Boolean" then "boolean()"
      else if field.type == "Int" then "number()"
      else if field.type == "Float" then "number()"
      else if field.type == "BigInt" then "number()"
      else if field.type == "Decimal" then "number()"
      else if field.type == "DateTime" then "number()"
      else if field.type == "Json" then "json()"
      else "string()",
    isOptional := !field.isRequired }

/-- schemaMapper.ts toCamelCase: preserve the leading run of underscores and
camel-case the remainder. -/
def toCamelCase (s : String) : String :=
  let l := s.toList
  let pre := l.takeWhile (fun c => c = '_')
  let rest := l.drop pre.length
  (pre ++ camelList rest).asString

/-- schemaMapper.ts getTableName: camel-case the table name when
remapTablesToCamelCase is set (the source receives the picked config member).
-/
def getTableName (tableName : String) (remapTablesToCamelCase : Bool) : String :=
  if remapTablesToCamelCase then toCamelCase tableName else tableName

/-- schemaMapper.ts getZeroTableName: always camel-cased (the call passes
remapTablesToCamelCase: true) with the suffix "Table". -/
def getZeroTableName (str : String) : String :=
  getTableName str true ++ "Table"

/-- schemaMapper.ts getImplicitManyToManyTableName: an explicit (truthy)
relation name is prefixed with an underscore, otherwise the two model names
are sorted (JS default ordinal sort) and joined with "To". -/
def getImplicitManyToManyTableName (model1 model2 : String) (relationName : Option String) : String :=
  if truthy relationName then "_" ++ relationName.getD ""
  else
    let first := if strLt model2 model1 then model2 else model1
    let second := if strLt model2 model1 then model1 else model2
    "_" ++ first ++ "To" ++ second

/-- The per-field column computation inside mapModel's forEach (lines 264-304
of schemaMapper.ts): explicit dbName wins, else camel-case remapping when
enabled and changing, else the field name unchanged. -/
def mkColumn (config : Config) (field : Field) : ZeroTypeMapping :=
  let baseMapping := mapPrismaTypeToZero field
  if truthy field.dbName then
    { type := baseMapping.type, isOptional := baseMapping.isOptional,
      columnName := field.name, originalColumnName := optTruthy field.dbName }
  else
    let potentialCamelCaseName := toCamelCase field.name
    if config.remapColumnsToCamelCase && (potentialCamelCaseName != field.name) then
      { type := baseMapping.type, isOptional := baseMapping.isOptional,
        columnName := potentialCamelCaseName, originalColumnName := optTruthy (some field.name) }
    else
      { type := baseMapping.type, isOptional := baseMapping.isOptional,
        columnName := field.name, originalColumnName := none }

/-- The column map built by mapModel: non-relational, non-list fields, keyed
by the original field name. -/
def buildColumns (model : Model) (config : Config) : List (String × ZeroTypeMapping) :=
  ((model.fields.filter (fun f => !truthy f.relationName)).filter (fun f => !f.isList)).foldl
    (fun acc f => jsInsert acc f.name (mkColumn config f)) []

/-- The primary key field list used by mapModel (lines 307-309) and by the
one-to-many branch of mapRelationships (lines 206-207): the declared
composite key, else the identity field when its name is truthy, else empty.
-/
def pkFieldsOf (model : Model) : List String :=
  match model.primaryKey with
  | some pk => pk.fields
  | none =>
    match model.fields.find? (fun f => f.isId) with
    | some f => if f.name == "" then [] else [f.name]
    | none => []

/-- mapRelationships' getFinalColumnName helper: final remapped column name
from the current model's columns, falling back to the original name. -/
def getFinalColumnName (columns : List (String × ZeroTypeMapping)) (fieldName : String) : String :=
  jsOrStr (((jsLookup columns fieldName).map (fun m => m.columnName)).getD "") fieldName

/-- mapRelationships' getFinalColumnNames helper. -/
def getFinalColumnNames (columns : List (String × ZeroTypeMapping)) (names : List String) : List String :=
  names.map (getFinalColumnName columns)

/-- mapRelationships' computeTargetFinalColumnName helper: final remapped
name of a field on the target model (dbName wins, then optional camel-case
remapping), falling back to the original name when the field is missing. -/
def computeTargetFinalColumnName (config : Config) (targetModel : Model) (originalFieldName : String) : String :=
  match targetModel.fields.find? (fun f => f.name == originalFieldName) with
  | none => originalFieldName
  | some targetField =>
    let baseName := jsOrOpt targetField.dbName targetField.name
    if config.remapColumnsToCamelCase then toCamelCase baseName else baseName

/-- mapRelationships' computeTargetFinalColumnNames helper. -/
def computeTargetFinalColumnNames (config : Config) (targetModel : Model) (names : List String) : List String :=
  names.map (computeTargetFinalColumnName config targetModel)

/-- The body of mapRelationships' forEach for one relational field
(lines 119-250 of schemaMapper.ts).  Produces `none` when the target model is
excluded (the field is skipped), an error when the target model does not
exist, and the relationship descriptor otherwise. -/
def mapRelationshipField (model : Model) (dmmf : Document) (config : Config)
    (columns : List (String × ZeroTypeMapping)) (field : Field) :
    Except String (Option ZeroRelationship) :=
  match dmmf.models.find? (fun m => m.name == field.type) with
  | none => .error ("Target model " ++ field.type ++ " not found for relationship " ++ field.name)
  | some targetModel =>
    if config.excludeTables.contains targetModel.name then .ok none
    else
      let backReference := targetModel.fields.find? (fun f =>
        f.relationName == field.relationName && f.type == model.name)
      if field.isList then
        if (backReference.map (fun b => b.isList)).getD false then
          let joinTableName := getImplicitManyToManyTableName model.name targetModel.name field.relationName
          let modelA := if strLt targetModel.name model.name then targetModel else model
          let isModelA := model.name == modelA.name
          let modelOriginalIdField :=
            jsOrOpt ((model.fields.find? (fun f => f.isId)).map (fun f => f.name)) "id"
          let targetModelOriginalIdField :=
            jsOrOpt ((targetModel.fields.find? (fun f => f.isId)).map (fun f => f.name)) "id"
          let modelFinalIdName := getFinalColumnName columns modelOriginalIdField
          let targetModelFinalIdName :=
            computeTargetFinalColumnName config targetModel targetModelOriginalIdField
          .ok (some (.chain .many [
            { sourceField := [modelFinalIdName],
              destField := [if isModelA then "A" else "B"],
              destSchema := getZeroTableName joinTableName },
            { sourceField := [if isModelA then "B" else "A"],
              destField := [targetModelFinalIdName],
              destSchema := getZeroTableName targetModel.name } ]))
        else
          let originalSourceFields := pkFieldsOf model
          let originalDestFields := (backReference.map (fun b => b.relationFromFields)).getD []
          .ok (some (.direct .many (getFinalColumnNames columns originalSourceFields)
            (computeTargetFinalColumnNames config targetModel originalDestFields)
            (getZeroTableName targetModel.name)))
      else
        let originalSourceFields :=
          if field.relationFromFields.length != 0 then field.relationFromFields
          else match backReference with
            | some b => if b.relationFromFields.length != 0 then b.relationToFields else []
            | none => []
        let originalDestFields :=
          if field.relationFromFields.length != 0 then field.relationToFields
          else match backReference with
            | some b => if b.relationFromFields.length != 0 then b.relationFromFields else []
            | none => []
        .ok (some (.direct .one (getFinalColumnNames columns originalSourceFields)
          (computeTargetFinalColumnNames config targetModel originalDestFields)
          (getZeroTableName targetModel.name)))

/-- The forEach loop of mapRelationships, inserting each produced descriptor
under the field name. -/
def mapRelsAux (model : Model) (dmmf : Document) (config : Config)
    (columns : List (String × ZeroTypeMapping)) :
    List Field → List (String × ZeroRelationship) → Except String (List (String × ZeroRelationship))
  | [], acc => .ok acc
  | f :: fs, acc =>
    match mapRelationshipField model dmmf config columns f with
    | .error e => .error e
    | .ok none => mapRelsAux model dmmf config columns fs acc
    | .ok (some r) => mapRelsAux model dmmf config columns fs (jsInsert acc f.name r)

/-- schemaMapper.ts mapRelationships, as the list of produced (name,
descriptor) bindings; mapModel turns the empty list into the absent map. -/
def mapRelationships (model : Model) (dmmf : Document) (config : Config)
    (columns : List (String × ZeroTypeMapping)) :
    Except String (List (String × ZeroRelationship)) :=
  mapRelsAux model dmmf config columns (model.fields.filter (fun f => truthy f.relationName)) []

/-- The primary-key resolution loop of mapModel (lines 327-334): map every
original key field name to its final column name via the column map. -/
def mapPk (columns : List (String × ZeroTypeMapping)) (mname : String) :
    List String → Except String (List String)
  | [] => .ok []
  | n :: ns =>
    match jsLookup columns n with
    | none => .error ("Primary key field " ++ n ++ " not found in mapped columns for model " ++ mname)
    | some cm =>
      match mapPk columns mname ns with
      | .error e => .error e
      | .ok rest => .ok (cm.columnName :: rest)

/-- schemaMapper.ts mapModel. -/
def mapModel (model : Model) (dmmf : Document) (config : Config) : Except String ZeroModel :=
  let columns := buildColumns model config
  let originalPrimaryKeyFields := pkFieldsOf model
  if originalPrimaryKeyFields.head?.getD "" = "" then
    .error ("No primary key found for " ++ model.name)
  else
    let tableName := jsOrOpt model.dbName model.name
    let camelCasedName := if config.remapTablesToCamelCase then toCamelCase tableName else tableName
    let shouldRemap := config.remapTablesToCamelCase && (camelCasedName != tableName)
    match mapRelationships model dmmf config columns with
    | .error e => .error e
    | .ok rels =>
      match mapPk columns model.name originalPrimaryKeyFields with
      | .error e => .error e
      | .ok pk =>
        .ok { tableName := if shouldRemap then camelCasedName else tableName,
              originalTableName := if shouldRemap then some tableName else none,
              modelName := model.name,
              zeroTableName := getZeroTableName model.name,
              columns := columns,
              relationships := if rels.isEmpty then none else some rels,
              primaryKey := pk }

/-- The destination key list for one side of a synthesized join model:
the identity field's name when truthy, else empty (lines 90-92 / 98-100). -/
def implicitJoinDestField (m : Model) : List String :=
  match m.fields.find? (fun f => f.isId) with
  | some f => if f.name == "" then [] else [f.name]
  | none => []

/-- schemaMapper.ts createImplicitManyToManyModel. -/
def createImplicitManyToManyModel (model1 model2 : Model) (relationName : Option String)
    (config : Config) : ZeroModel :=
  let originalTableName := getImplicitManyToManyTableName model1.name model2.name relationName
  let modelA := if strLt model2.name model1.name then model2 else model1
  let modelB := if strLt model2.name model1.name then model1 else model2
  let tableName := getTableName originalTableName config.remapTablesToCamelCase
  { tableName := tableName,
    originalTableName := some originalTableName,
    modelName := originalTableName,
    zeroTableName := getZeroTableName originalTableName,
    columns :=
      [("A", { type := "string()", isOptional := false, columnName := "A", originalColumnName := none }),
       ("B", { type := "string()", isOptional := false, columnName := "B", originalColumnName := none })],
    relationships := some
      [("modelA", .direct .one ["A"] (implicitJoinDestField modelA) (getZeroTableName modelA.name)),
       ("modelB", .direct .one ["B"] (implicitJoinDestField modelB) (getZeroTableName modelB.name))],
    primaryKey := ["A", "B"] }

/-- The model-mapping loop of transformSchema (fail-fast on the first
error). -/
def mapModelsE (dmmf : Document) (config : Config) : List Model → Except String (List ZeroModel)
  | [] => .ok []
  | m :: ms =>
    match mapModel m dmmf config with
    | .error e => .error e
    | .ok zm =>
      match mapModelsE dmmf config ms with
      | .error e => .error e
      | .ok rest => .ok (zm :: rest)

/-- The implicit join-table synthesis of transformSchema (lines 350-373):
for every list-typed relational field on a kept model whose target exists, is
not excluded and whose back-reference is list-typed, synthesize the join
model once (only from the lexicographically first side). -/
def implicitJoinTablesOf (dmmf : Document) (config : Config) (filteredModels : List Model) :
    List ZeroModel :=
  filteredModels.flatMap (fun model =>
    (model.fields.filter (fun f => truthy f.relationName && f.isList)).filterMap (fun field =>
      match dmmf.models.find? (fun m => m.name == field.type) with
      | none => none
      | some targetModel =>
        if config.excludeTables.contains targetModel.name then none
        else
          match targetModel.fields.find? (fun f =>
            f.relationName == field.relationName && f.type == model.name) with
          | some backReference =>
            if backReference.isList && strLt model.name targetModel.name then
              some (createImplicitManyToManyModel model targetModel field.relationName config)
            else none
          | none => none))

/-- The model filtering of transformSchema (lines 343-345): drop excluded
models. -/
def filteredModelsOf (dmmf : Document) (config : Config) : List Model :=
  dmmf.models.filter (fun m => !(config.excludeTables.contains m.name))

/-- schemaMapper.ts transformSchema. -/
def transformSchema (dmmf : Document) (config : Config) : Except String TransformedSchema :=
  match mapModelsE dmmf config (filteredModelsOf dmmf config) with
  | .error e => .error e
  | .ok models =>
    .ok { models := models ++ implicitJoinTablesOf dmmf config (filteredModelsOf dmmf config),
          enums := dmmf.enums }

/-- Whether an Except result is a success. -/
def isOkB {ε α : Type} : Except ε α → Bool
  | .ok _ => true
  | .error _ => false

/-- No two adjacent ASCII uppercase letters. -/
def noAdjUp : List Char → Bool
  | [] => true
  | [_] => true
  | a :: b :: t => !(isUp a && isUp b) && noAdjUp (b :: t)

/-- A character list on which a camel-case pass starting mid-word after the
character `p` is the identity: every character is alphanumeric and every
uppercase character follows a lowercase letter or digit. -/
def camelFix : Char → List Char → Bool
  | _, [] => true
  | p, c :: cs => isAlnum c && (!isUp c || isLow p || isDig p) && camelFix c cs

/-- A character list on which a camel-case pass is the identity: every
character is alphanumeric, the head is not uppercase, and every uppercase
character follows a lowercase letter or digit. -/
def camelFix0 : List Char → Bool
  | [] => true
  | c :: cs => isAlnum c && !isUp c && camelFix c cs

/-- Equal, non-zero lengths of the local and target key lists of a
relationship descriptor (for a chain: of every link, and the chain is
non-empty). -/
def relLenOK : ZeroRelationship → Bool
  | .direct _ src dst _ => (src.length == dst.length) && (src.length != 0)
  | .chain _ links =>
    (links.length != 0) &&
    links.all (fun l => (l.sourceField.length == l.destField.length) && (l.sourceField.length != 0))

/-- All destination schema identifiers mentioned by a relationship
descriptor (one for a direct link, one per link of a chain). -/
def destSchemas : ZeroRelationship → List String
  | .direct _ _ _ ds => [ds]
  | .chain _ links => links.map (fun l => l.destSchema)

/-- The model has an identity-flagged field with a truthy name. -/
def hasGoodId (m : Model) : Bool :=
  match m.fields.find? (fun f => f.isId) with
  | some f => f.name != ""
  | none => false

/-- Well-formedness of one relational field, sufficient for the key-length
invariant: list fields have a back-reference whose foreign-key list matches
the source primary key (or, for many-to-many, both participants have identity
fields, which the synthesized join model needs); non-list fields declare
foreign keys with matching target keys on one of the two sides. -/
def fieldKeysWF (dmmf : Document) (c : Config) (m : Model) (f : Field) : Bool :=
  match dmmf.models.find? (fun t => t.name == f.type) with
  | none => true
  | some t =>
    if c.excludeTables.contains t.name then true
    else
      let backRef := t.fields.find? (fun g => g.relationName == f.relationName && g.type == m.name)
      if f.isList then
        match backRef with
        | none => false
        | some b =>
          if b.isList then hasGoodId m && hasGoodId t
          else (b.relationFromFields.length == (pkFieldsOf m).length) && ((pkFieldsOf m).length != 0)
      else
        if f.relationFromFields.length != 0 then
          f.relationToFields.length == f.relationFromFields.length
        else
          match backRef with
          | some b =>
            (b.relationFromFields.length != 0) &&
            (b.relationToFields.length == b.relationFromFields.length)
          | none => false

/-- Well-formedness of every relational field of every non-excluded model. -/
def keysWF (dmmf : Document) (c : Config) : Bool :=
  dmmf.models.all (fun m =>
    if c.excludeTables.contains m.name then true
    else (m.fields.filter (fun f => truthy f.relationName)).all (fieldKeysWF dmmf c m))

/-- Helper to build a scalar or relational field descriptor. -/
def mkField (name type : String) (req isList isId : Bool) (dbName relationName : Option String)
    (rff rtf : List String) : Field :=
  { name := name, type := type, kind := "scalar", isRequired := req, isList := isList,
    isId := isId, dbName := dbName, relationName := relationName,
    relationFromFields := rff, relationToFields := rtf }

/-- A configuration with every option off. -/
def cfgPlain : Config := ⟨[], false, false⟩

/-- A configuration with column remapping on. -/
def cfgCols : Config := ⟨[], false, true⟩

/-- Scenario input for C1: the Message model of the spec scenario. -/
def c1SenderID : Field := mkField "senderID" "String" false false false (some "sender_id") none [] []

/-- Scenario input for C1. -/
def c1Msg : Model :=
  ⟨"Message", none, [mkField "id" "String" true false true none none [] [], c1SenderID], none⟩

/-- Scenario input for C2: a user model with one relation to an excluded and
one to a kept model. -/
def c2User : Model :=
  ⟨"User", none,
   [mkField "id" "String" true false true none none [] [],
    mkField "posts" "Post" true true false none (some "UserPosts") [] [],
    mkField "profile" "Profile" true false false none (some "UserProfile") [] []], none⟩

/-- Scenario input for C2. -/
def c2Post : Model :=
  ⟨"Post", none,
   [mkField "id" "String" true false true none none [] [],
    mkField "users" "User" true true false none (some "UserPosts") [] []], none⟩

/-- Scenario input for C2. -/
def c2Profile : Model :=
  ⟨"Profile", none,
   [mkField "id" "String" true false true none none [] [],
    mkField "userId" "String" true false false none none [] [],
    mkField "user" "User" true false false none (some "UserProfile") ["userId"] ["id"]], none⟩

/-- Scenario input for C2. -/
def c2Doc : Document := ⟨[c2User, c2Post, c2Profile], []⟩

/-- Scenario configuration for C2: exclude Post. -/
def c2Cfg : Config := ⟨["Post"], false, false⟩

/-- Scenario input for C3/C6 style claims: a model with neither a declared
composite primary key nor an identity field. -/
def c3NoPk : Model := ⟨"Widget", none, [mkField "x" "String" true false false none none [] []], none⟩

/-- Scenario input for C3. -/
def c3Doc : Document := ⟨[c3NoPk], []⟩

/-- Scenario configuration for C3's counterexample: the primary-key-less
model is excluded, so the transformation succeeds. -/
def c3Excl : Config := ⟨["Widget"], false, false⟩

/-- Failing input for C4: a self-referential relation whose list side is
declared before its scalar side. -/
def c4Cat : Model :=
  ⟨"Category", none,
   [mkField "children" "Category" true true false none (some "Tree") [] [],
    mkField "parent" "Category" true false false none (some "Tree") ["parentId"] ["id"],
    mkField "id" "String" true false true none none [] [],
    mkField "parentId" "String" true false false none none [] []], none⟩

/-- Failing input for C4. -/
def c4Doc : Document := ⟨[c4Cat], []⟩

/-- Scenario input for C5: Post with an integer identity. -/
def c5Post : Model := ⟨"Post", none, [mkField "id" "Int" true false true none none [] []], none⟩

/-- Scenario input for C5: Category with an integer identity. -/
def c5Categ : Model := ⟨"Category", none, [mkField "id" "Int" true false true none none [] []], none⟩

/-- The join model synthesized for C5's scenario (no explicit relation
name). -/
def c5Join : ZeroModel := createImplicitManyToManyModel c5Post c5Categ none cfgPlain

/-- Scenario input for C6: a many-to-many participant with an identity
field. -/
def c6A : Model :=
  ⟨"Alpha", none,
   [mkField "id" "String" true false true none none [] [],
    mkField "betas" "Beta" true true false none (some "AB") [] []], none⟩

/-- Scenario input for C6: a many-to-many participant with neither an
identity field nor a declared composite primary key. -/
def c6B : Model :=
  ⟨"Beta", none,
   [mkField "x" "String" true false false none none [] [],
    mkField "alphas" "Alpha" true true false none (some "AB") [] []], none⟩

/-- Scenario input for C6. -/
def c6Doc : Document := ⟨[c6A, c6B], []⟩

/-- Scenario configuration for C6's counterexample: the identity-less
participant is excluded, so the transformation succeeds. -/
def c6Excl : Config := ⟨["Beta"], false, false⟩

/-- Scenario input for C7/C10: one-to-many with a composite key. -/
def c7Parent : Model :=
  ⟨"Parent", none,
   [mkField "parentId1" "String" true false false none none [] [],
    mkField "parentId2" "String" true false false none none [] [],
    mkField "children" "Child" true true false none (some "ParentToChild") [] []],
   some ⟨["parentId1", "parentId2"]⟩⟩

/-- Scenario input for C7/C10. -/
def c7Child : Model :=
  ⟨"Child", none,
   [mkField "id" "String" true false true none none [] [],
    mkField "parentFk1" "String" true false false none none [] [],
    mkField "parentFk2" "String" true false false none none [] [],
    mkField "parent" "Parent" true false false none (some "ParentToChild")
      ["parentFk1", "parentFk2"] ["parentId1", "parentId2"]], none⟩

/-- Scenario input for C7/C10: a many-to-many pair. -/
def c7Post : Model :=
  ⟨"Post", none,
   [mkField "id" "String" true false true none none [] [],
    mkField "categories" "Categ" true true false none (some "PostToCateg") [] []], none⟩

/-- Scenario input for C7/C10. -/
def c7Categ : Model :=
  ⟨"Categ", none,
   [mkField "id" "String" true false true none none [] [],
    mkField "posts" "Post" true true false none (some "PostToCateg") [] []], none⟩

/-- Scenario input for C7/C10. -/
def c7Doc : Document := ⟨[c7Parent, c7Child, c7Post, c7Categ], []⟩

/-- The transformed schema of the C7 scenario (the fallback is never
reached: the transformation succeeds on this input). -/
def c7Out : TransformedSchema :=
  match transformSchema c7Doc cfgPlain with
  | .ok s => s
  | .error _ => ⟨[], []⟩

/-- Scenario input for C8: the User model of the spec scenario. -/
def c8User : Model :=
  ⟨"User", none,
   [mkField "id" "String" true false true none none [] [],
    mkField "first_name" "String" true false false none none [] []], none⟩

/-- Scenario input for C8. -/
def c8Doc : Document := ⟨[c8User], []⟩

/-- Scenario input for C10 (same shape as the C7 scenario, kept separate). -/
def c10Doc : Document := ⟨[c7Parent, c7Child, c7Post, c7Categ], []⟩

/-- The transformed schema of the C10 scenario. -/
def c10Out : TransformedSchema :=
  match transformSchema c10Doc cfgPlain with
  | .ok s => s
  | .error _ => ⟨[], []⟩

theorem jsLookup_append {α : Type} (l₁ l₂ : List (String × α)) (k : String) :
    jsLookup (l₁ ++ l₂) k =
      (match jsLookup l₁ k with
       | some v => some v
       | none => jsLookup l₂ k) := by
  induction l₁ with
  | nil => simp [jsLookup]
  | cons a t ih =>
    obtain ⟨k₀, v₀⟩ := a
    by_cases h : k₀ = k <;> simp [jsLookup, h, ih]

theorem jsLookup_eq_none {α : Type} {l : List (String × α)} {k : String}
    (h : l.any (fun p => p.1 == k) = false) : jsLookup l k = none := by
  induction l with
  | nil => rfl
  | cons a t ih =>
    obtain ⟨k₀, v₀⟩ := a
    simp only [List.any_cons, Bool.or_eq_false_iff] at h
    have hk : ¬ (k₀ = k) := by simpa using h.1
    simp [jsLookup, hk, ih h.2]

theorem jsLookup_map_replace_self {α : Type} {l : List (String × α)} {k : String} (v : α)
    (h : l.any (fun p => p.1 == k) = true) :
    jsLookup (l.map (fun p => if p.1 = k then (k, v) else p)) k = some v := by
  induction l with
  | nil => simp at h
  | cons a t ih =>
    obtain ⟨k₀, v₀⟩ := a
    by_cases hk : k₀ = k
    · subst hk
      have h1 : (if ((k₀, v₀) : String × α).1 = k₀ then (k₀, v) else (k₀, v₀)) = (k₀, v) := by simp
      rw [List.map_cons, h1]
      simp [jsLookup]
    · have ht : (t.any fun p => p.1 == k) = true := by
        simp only [List.any_cons] at h
        rcases Bool.or_eq_true_iff.mp h with h' | h'
        · exact absurd (by simpa using h') hk
        · exact h'
      have h1 : (if ((k₀, v₀) : String × α).1 = k then (k, v) else (k₀, v₀)) = (k₀, v₀) := by simp [hk]
      rw [List.map_cons, h1]
      simp [jsLookup, hk, ih ht]

theorem jsLookup_map_replace_ne {α : Type} {l : List (String × α)} {k k' : String} (v : α)
    (h : k' ≠ k) :
    jsLookup (l.map (fun p => if p.1 = k' then (k', v) else p)) k = jsLookup l k := by
  induction l with
  | nil => rfl
  | cons a t ih =>
    obtain ⟨k₀, v₀⟩ := a
    by_cases hk : k₀ = k'
    · subst hk
      have hne : ¬ (k₀ = k) := h
      have h1 : (if ((k₀, v₀) : String × α).1 = k₀ then (k₀, v) else (k₀, v₀)) = (k₀, v) := by simp
      rw [List.map_cons, h1]
      simp [jsLookup, hne, ih]
    · have h1 : (if ((k₀, v₀) : String × α).1 = k' then (k', v) else (k₀, v₀)) = (k₀, v₀) := by simp [hk]
      rw [List.map_cons, h1]
      simp [jsLookup, ih]

theorem jsLookup_jsInsert_self {α : Type} (l : List (String × α)) (k : String) (v : α) :
    jsLookup (jsInsert l k v) k = some v := by
  unfold jsInsert
  by_cases h : l.any (fun p => p.1 == k) = true
  · simp [h, jsLookup_map_replace_self v h]
  · have h' : l.any (fun p => p.1 == k) = false := Bool.eq_false_iff.mpr h
    simp [h', jsLookup_append, jsLookup_eq_none h', jsLookup]

theorem jsLookup_jsInsert_ne {α : Type} (l : List (String × α)) {k k' : String} (v : α)
    (h : k' ≠ k) : jsLookup (jsInsert l k' v) k = jsLookup l k := by
  unfold jsInsert
  by_cases hany : l.any (fun p => p.1 == k') = true
  · simp [hany, jsLookup_map_replace_ne v h]
  · have h' : l.any (fun p => p.1 == k') = false := Bool.eq_false_iff.mpr hany
    simp [h', jsLookup_append, jsLookup, h]
    cases jsLookup l k <;> rfl

theorem mem_jsInsert {α : Type} {l : List (String × α)} {k : String} {v : α}
    {p : String × α} (hp : p ∈ jsInsert l k v) :
    p = (k, v) ∨ (p ∈ l ∧ p.1 ≠ k) := by
  unfold jsInsert at hp
  by_cases hany : l.any (fun p => p.1 == k) = true
  · simp only [hany, if_true] at hp
    rcases List.mem_map.mp hp with ⟨q, hq, hφ⟩
    by_cases hk : q.1 = k
    · left; rw [← hφ]; simp [hk]
    · right
      rw [← hφ]
      simp only [hk, if_false]
      exact ⟨hq, hk⟩
  · have h' : l.any (fun p => p.1 == k) = false := Bool.eq_false_iff.mpr hany
    simp only [h', Bool.false_eq_true, if_false, List.mem_append, List.mem_singleton] at hp
    rcases hp with hp | hp
    · right
      refine ⟨hp, ?_⟩
      have h2 := List.any_eq_false.mp h' p hp
      simpa using h2
    · left; exact hp

theorem jsLookup_foldl_of_forall_ne {α β : Type} (key : α → String) (val : α → β)
    {k : String} :
    ∀ (l : List α) (init : List (String × β)), (∀ g ∈ l, key g ≠ k) →
    jsLookup (l.foldl (fun acc g => jsInsert acc (key g) (val g)) init) k = jsLookup init k := by
  intro l
  induction l with
  | nil => intro init _; rfl
  | cons a t ih =>
    intro init h
    have ha : key a ≠ k := h a (by simp)
    have ht : ∀ g ∈ t, key g ≠ k := fun g hg => h g (by simp [hg])
    simp only [List.foldl_cons]
    rw [ih (jsInsert init (key a) (val a)) ht, jsLookup_jsInsert_ne init (val a) ha]

theorem jsLookup_foldl_of_mem {α β : Type} (key : α → String) (val : α → β) :
    ∀ (l : List α) (init : List (String × β)) (f : α), f ∈ l → (l.map key).Nodup →
    jsLookup (l.foldl (fun acc g => jsInsert acc (key g) (val g)) init) (key f) = some (val f) := by
  intro l
  induction l with
  | nil => intro _ f hf; simp at hf
  | cons a t ih =>
    intro init f hf hnd
    simp only [List.map_cons, List.nodup_cons] at hnd
    rcases List.mem_cons.mp hf with rfl | hf
    · simp only [List.foldl_cons]
      rw [jsLookup_foldl_of_forall_ne key val t _ ?_, jsLookup_jsInsert_self]
      intro g hg hkey
      exact hnd.1 (hkey ▸ List.mem_map_of_mem key hg)
    · simp only [List.foldl_cons]
      exact ih _ f hf hnd.2

theorem buildColumns_lookup (model : Model) (config : Config) (f : Field)
    (hf : f ∈ (model.fields.filter (fun f => !truthy f.relationName)).filter (fun f => !f.isList))
    (hnd : (model.fields.map (fun f => f.name)).Nodup) :
    jsLookup (buildColumns model config) f.name = some (mkColumn config f) := by
  unfold buildColumns
  have hsub : ((model.fields.filter (fun f => !truthy f.relationName)).filter
      (fun f => !f.isList)).Sublist model.fields :=
    (List.filter_sublist _).trans (List.filter_sublist _)
  exact jsLookup_foldl_of_mem (fun f => f.name) (mkColumn config) _ [] f hf
    ((hsub.map (fun f => f.name)).nodup hnd)

theorem mapModel_ok_parts {model : Model} {dmmf : Document} {config : Config} {r : ZeroModel}
    (h : mapModel model dmmf config = .ok r) :
    r.columns = buildColumns model config ∧ r.modelName = model.name ∧
    r.zeroTableName = getZeroTableName model.name ∧
    (∃ rels, mapRelationships model dmmf config (buildColumns model config) = .ok rels ∧
      r.relationships = (if rels.isEmpty then none else some rels)) ∧
    (∃ pk, mapPk (buildColumns model config) model.name (pkFieldsOf model) = .ok pk ∧
      r.primaryKey = pk) ∧
    (pkFieldsOf model).head?.getD "" ≠ "" := by
  unfold mapModel at h
  by_cases hpk : (pkFieldsOf model).head?.getD "" = ""
  · simp [hpk] at h
  · simp only [hpk, if_false] at h
    cases hrel : mapRelationships model dmmf config (buildColumns model config) with
    | error e => rw [hrel] at h; exact absurd h (by simp)
    | ok rels =>
      rw [hrel] at h
      cases hmp : mapPk (buildColumns model config) model.name (pkFieldsOf model) with
      | error e => rw [hmp] at h; exact absurd h (by simp)
      | ok pk =>
        rw [hmp] at h
        simp only [Except.ok.injEq] at h
        subst h
        exact ⟨rfl, rfl, rfl, ⟨rels, rfl, rfl⟩, ⟨pk, rfl, rfl⟩, hpk⟩

/-- C1: for every non-relational, non-list field of a model with distinct
field names, the column entry built by mapModel satisfies the stated
precedence: a truthy database-mapped name makes the resolved column name the
field's own name with the mapped name as override (whatever the remap flag
says); otherwise, if column remapping is enabled and camel-casing changes the
field name, the resolved name is the camel-cased name with the original field
name as override; otherwise the resolved name is the field name with no
override. -/
theorem c1_column_name_precedence (model : Model) (dmmf : Document) (config : Config) (f : Field)
    (hf : f ∈ model.fields) (hrel : truthy f.relationName = false) (hlist : f.isList = false)
    (hnd : (model.fields.map (fun f => f.name)).Nodup) :
    ∃ cm : ZeroTypeMapping,
      jsLookup (buildColumns model config) f.name = some cm ∧
      (∀ r, mapModel model dmmf config = Except.ok r → jsLookup r.columns f.name = some cm) ∧
      (truthy f.dbName = true →
        cm.columnName = f.name ∧ cm.originalColumnName = f.dbName) ∧
      (truthy f.dbName = false → config.remapColumnsToCamelCase = true →
        toCamelCase f.name ≠ f.name →
        cm.columnName = toCamelCase f.name ∧ cm.originalColumnName = some f.name) ∧
      (truthy f.dbName = false →
        (config.remapColumnsToCamelCase = false ∨ toCamelCase f.name = f.name) →
        cm.columnName = f.name ∧ cm.originalColumnName = none) := by
  have hf' : f ∈ (model.fields.filter (fun f => !truthy f.relationName)).filter
      (fun f => !f.isList) := by
    rw [List.mem_filter, List.mem_filter]
    exact ⟨⟨hf, by simp [hrel]⟩, by simp [hlist]⟩
  refine ⟨mkColumn config f, buildColumns_lookup model config f hf' hnd, ?_, ?_, ?_, ?_⟩
  · intro r hr
    rw [(mapModel_ok_parts hr).1]
    exact buildColumns_lookup model config f hf' hnd
  · intro hdb
    simp [mkColumn, hdb, optTruthy]
  · intro hdb hremap hcc
    have hname : f.name ≠ "" := by
      intro h0
      exact hcc (by rw [h0]; rfl)
    have hb : (config.remapColumnsToCamelCase && (toCamelCase f.name != f.name)) = true := by
      simp [hremap, hcc]
    have h3 : optTruthy (some f.name) = some f.name := by simp [optTruthy, truthy, hname]
    simp [mkColumn, hdb, hb, h3]
  · intro hdb hcase
    have hb : (config.remapColumnsToCamelCase && (toCamelCase f.name != f.name)) = false := by
      rcases hcase with h | h <;> simp [h]
    simp [mkColumn, hdb, hb]

theorem contains_false_of_not_mem {l : List String} {a : String} (h : a ∉ l) :
    l.contains a = false := by
  have h' : List.elem a l = false := by simp [h]
  exact h'

theorem contains_true_of_mem {l : List String} {a : String} (h : a ∈ l) :
    l.contains a = true := by
  have h' : List.elem a l = true := by simp [h]
  exact h'

theorem mapPk_ok_length {columns : List (String × ZeroTypeMapping)} {mname : String} :
    ∀ {l pk}, mapPk columns mname l = .ok pk → pk.length = l.length := by
  intro l
  induction l with
  | nil =>
    intro pk h
    unfold mapPk at h
    simp only [Except.ok.injEq] at h
    subst h
    rfl
  | cons n ns ih =>
    intro pk h
    unfold mapPk at h
    cases hl : jsLookup columns n with
    | none => rw [hl] at h; simp at h
    | some cm =>
      rw [hl] at h
      cases hr : mapPk columns mname ns with
      | error e => rw [hr] at h; simp at h
      | ok rest =>
        rw [hr] at h
        simp only [Except.ok.injEq] at h
        subst h
        simp [ih hr]

theorem mapModelsE_ok_forall {dmmf : Document} {config : Config} :
    ∀ {l}, isOkB (mapModelsE dmmf config l) = true →
    ∀ m ∈ l, isOkB (mapModel m dmmf config) = true := by
  intro l
  induction l with
  | nil => intro _ m hm; simp at hm
  | cons a t ih =>
    intro h m hm
    unfold mapModelsE at h
    cases ha : mapModel a dmmf config with
    | error e => rw [ha] at h; simp [isOkB] at h
    | ok zm =>
      rw [ha] at h
      cases ht : mapModelsE dmmf config t with
      | error e => rw [ht] at h; simp [isOkB] at h
      | ok rest =>
        rcases List.mem_cons.mp hm with rfl | hm
        · simp [ha, isOkB]
        · exact ih (by rw [ht]; rfl) m hm

theorem mapModelsE_ok_mem {dmmf : Document} {config : Config} :
    ∀ {l ys}, mapModelsE dmmf config l = .ok ys →
    ∀ y ∈ ys, ∃ m ∈ l, mapModel m dmmf config = .ok y := by
  intro l
  induction l with
  | nil =>
    intro ys h y hy
    unfold mapModelsE at h
    simp only [Except.ok.injEq] at h
    subst h
    simp at hy
  | cons a t ih =>
    intro ys h y hy
    unfold mapModelsE at h
    cases ha : mapModel a dmmf config with
    | error e => rw [ha] at h; simp at h
    | ok zm =>
      rw [ha] at h
      cases ht : mapModelsE dmmf config t with
      | error e => rw [ht] at h; simp at h
      | ok rest =>
        rw [ht] at h
        simp only [Except.ok.injEq] at h
        subst h
        rcases List.mem_cons.mp hy with rfl | hy
        · exact ⟨a, by simp, ha⟩
        · obtain ⟨m, hm, hok⟩ := ih ht y hy
          exact ⟨m, by simp [hm], hok⟩

theorem transformSchema_ok_parts {d : Document} {c : Config} {s : TransformedSchema}
    (h : transformSchema d c = .ok s) :
    ∃ ms, mapModelsE d c (filteredModelsOf d c) = .ok ms ∧
      s.models = ms ++ implicitJoinTablesOf d c (filteredModelsOf d c) ∧
      s.enums = d.enums := by
  unfold transformSchema at h
  cases hm : mapModelsE d c (filteredModelsOf d c) with
  | error e => rw [hm] at h; exact absurd h (by simp)
  | ok ms =>
    rw [hm] at h
    simp only [Except.ok.injEq] at h
    subst h
    exact ⟨ms, rfl, rfl, rfl⟩

theorem transformSchema_isOk (d : Document) (c : Config) :
    isOkB (transformSchema d c) = isOkB (mapModelsE d c (filteredModelsOf d c)) := by
  unfold transformSchema
  cases h : mapModelsE d c (filteredModelsOf d c) <;> rfl

theorem mem_implicitJoinTablesOf {dmmf : Document} {config : Config} {fl : List Model}
    {om : ZeroModel} (h : om ∈ implicitJoinTablesOf dmmf config fl) :
    ∃ model ∈ fl, ∃ field ∈ model.fields, (truthy field.relationName && field.isList) = true ∧
    ∃ targetModel, dmmf.models.find? (fun m => m.name == field.type) = some targetModel ∧
      config.excludeTables.contains targetModel.name = false ∧
      ∃ backReference, targetModel.fields.find? (fun f =>
        f.relationName == field.relationName && f.type == model.name) = some backReference ∧
      (backReference.isList && strLt model.name targetModel.name) = true ∧
      om = createImplicitManyToManyModel model targetModel field.relationName config := by
  unfold implicitJoinTablesOf at h
  rcases List.mem_flatMap.mp h with ⟨model, hmodel, hmem⟩
  rcases List.mem_filterMap.mp hmem with ⟨field, hfield, heq⟩
  refine ⟨model, hmodel, field, (List.mem_filter.mp hfield).1, (List.mem_filter.mp hfield).2, ?_⟩
  cases hfind : dmmf.models.find? (fun m => m.name == field.type) with
  | none => rw [hfind] at heq; simp at heq
  | some t =>
    rw [hfind] at heq
    dsimp only at heq
    cases hexc : config.excludeTables.contains t.name with
    | true => rw [hexc] at heq; simp at heq
    | false =>
      rw [hexc] at heq
      simp only [Bool.false_eq_true, if_false] at heq
      cases hback : t.fields.find? (fun f =>
          f.relationName == field.relationName && f.type == model.name) with
      | none => rw [hback] at heq; simp at heq
      | some b =>
        rw [hback] at heq
        dsimp only at heq
        cases hcond : (b.isList && strLt model.name t.name) with
        | false => rw [hcond] at heq; simp at heq
        | true =>
          rw [hcond] at heq
          simp only [if_true, Option.some.injEq] at heq
          exact ⟨t, rfl, hexc, b, hback, hcond, heq.symm⟩

theorem transform_fails_of_missing_pk {d : Document} {c : Config} {m : Model}
    (hm : m ∈ d.models) (hexcl : m.name ∉ c.excludeTables) (hpk : m.primaryKey = none)
    (hid : ∀ f ∈ m.fields, f.isId = false) : isOkB (transformSchema d c) = false := by
  have hfind : m.fields.find? (fun f => f.isId) = none :=
    List.find?_eq_none.mpr (fun f hf => by simp [hid f hf])
  have hpkF : pkFieldsOf m = [] := by simp [pkFieldsOf, hpk, hfind]
  have herr : isOkB (mapModel m d c) = false := by
    unfold mapModel
    simp [hpkF, isOkB]
  have hmf : m ∈ filteredModelsOf d c := by
    rw [filteredModelsOf, List.mem_filter]
    exact ⟨hm, by rw [contains_false_of_not_mem hexcl]; rfl⟩
  rw [transformSchema_isOk]
  by_contra hok
  have hok' : isOkB (mapModelsE d c (filteredModelsOf d c)) = true := by
    simpa using hok
  exact absurd (mapModelsE_ok_forall hok' m hmf) (by simp [herr])

theorem pk_nonempty_of_ok {d : Document} {c : Config} {s : TransformedSchema}
    (hs : transformSchema d c = .ok s) : ∀ om ∈ s.models, om.primaryKey ≠ [] := by
  intro om hom
  obtain ⟨ms, hmsE, hsm, _⟩ := transformSchema_ok_parts hs
  rw [hsm] at hom
  rcases List.mem_append.mp hom with hom | hom
  · obtain ⟨m, hm, hok⟩ := mapModelsE_ok_mem hmsE om hom
    obtain ⟨_, _, _, _, ⟨pk, hpk, hpkEq⟩, hne⟩ := mapModel_ok_parts hok
    have hlen := mapPk_ok_length hpk
    rw [hpkEq]
    intro h0
    rw [h0] at hlen
    have : pkFieldsOf m = [] := List.length_eq_zero.mp hlen.symm
    rw [this] at hne
    exact hne rfl
  · obtain ⟨_, _, _, _, _, _, _, _, _, _, _, heq⟩ := mem_implicitJoinTablesOf hom
    rw [heq]
    intro h0
    exact absurd h0 (by simp [createImplicitManyToManyModel])

theorem mapModelsE_forall_mem {dmmf : Document} {config : Config} :
    ∀ {l ys}, mapModelsE dmmf config l = .ok ys →
    ∀ m ∈ l, ∃ y ∈ ys, mapModel m dmmf config = .ok y := by
  intro l
  induction l with
  | nil => intro ys _ m hm; simp at hm
  | cons a t ih =>
    intro ys h m hm
    unfold mapModelsE at h
    cases ha : mapModel a dmmf config with
    | error e => rw [ha] at h; simp at h
    | ok zm =>
      rw [ha] at h
      cases ht : mapModelsE dmmf config t with
      | error e => rw [ht] at h; simp at h
      | ok rest =>
        rw [ht] at h
        simp only [Except.ok.injEq] at h
        subst h
        rcases List.mem_cons.mp hm with rfl | hm
        · exact ⟨zm, by simp, ha⟩
        · obtain ⟨y, hy, hok⟩ := ih ht m hm
          exact ⟨y, by simp [hy], hok⟩

theorem mapRelsAux_lookup_of_ne {model : Model} {dmmf : Document} {config : Config}
    {cols : List (String × ZeroTypeMapping)} :
    ∀ {fs : List Field} {acc rels}, mapRelsAux model dmmf config cols fs acc = .ok rels →
    ∀ {k : String}, (∀ f ∈ fs, f.name ≠ k) → jsLookup rels k = jsLookup acc k := by
  intro fs
  induction fs with
  | nil =>
    intro acc rels h k _
    unfold mapRelsAux at h
    simp only [Except.ok.injEq] at h
    subst h
    rfl
  | cons f ft ih =>
    intro acc rels h k hk
    unfold mapRelsAux at h
    cases hmrf : mapRelationshipField model dmmf config cols f with
    | error e => rw [hmrf] at h; simp at h
    | ok o =>
      rw [hmrf] at h
      cases o with
      | none => exact ih h (fun g hg => hk g (by simp [hg]))
      | some r =>
        rw [ih h (fun g hg => hk g (by simp [hg]))]
        exact jsLookup_jsInsert_ne acc r (hk f (by simp))

theorem mapRelsAux_lookup {model : Model} {dmmf : Document} {config : Config}
    {cols : List (String × ZeroTypeMapping)} :
    ∀ {fs : List Field} {acc rels}, mapRelsAux model dmmf config cols fs acc = .ok rels →
    (fs.map (fun f => f.name)).Nodup →
    ∀ f ∈ fs, jsLookup acc f.name = none →
    ∃ o, mapRelationshipField model dmmf config cols f = .ok o ∧ jsLookup rels f.name = o := by
  intro fs
  induction fs with
  | nil => intro acc rels _ _ f hf; simp at hf
  | cons g ft ih =>
    intro acc rels h hnd f hf hacc
    simp only [List.map_cons, List.nodup_cons] at hnd
    unfold mapRelsAux at h
    cases hmrf : mapRelationshipField model dmmf config cols g with
    | error e => rw [hmrf] at h; simp at h
    | ok o =>
      rw [hmrf] at h
      rcases List.mem_cons.mp hf with rfl | hf
      · refine ⟨o, hmrf, ?_⟩
        have hne : ∀ f' ∈ ft, f'.name ≠ f.name := by
          intro f' hf' heq
          exact hnd.1 (heq ▸ List.mem_map_of_mem (fun f => f.name) hf')
        cases o with
        | none => rw [mapRelsAux_lookup_of_ne h hne]; exact hacc
        | some r => rw [mapRelsAux_lookup_of_ne h hne]; exact jsLookup_jsInsert_self acc f.name r
      · cases o with
        | none => exact ih h hnd.2 f hf hacc
        | some r =>
          refine ih h hnd.2 f hf ?_
          have hne : g.name ≠ f.name := by
            intro heq
            exact hnd.1 (heq ▸ List.mem_map_of_mem (fun f => f.name) hf)
          rw [jsLookup_jsInsert_ne acc r hne]
          exact hacc

theorem mapRelsAux_mem {model : Model} {dmmf : Document} {config : Config}
    {cols : List (String × ZeroTypeMapping)} :
    ∀ {fs : List Field} {acc rels}, mapRelsAux model dmmf config cols fs acc = .ok rels →
    ∀ p ∈ rels, p ∈ acc ∨ ∃ f ∈ fs,
      mapRelationshipField model dmmf config cols f = .ok (some p.2) ∧ p.1 = f.name := by
  intro fs
  induction fs with
  | nil =>
    intro acc rels h p hp
    unfold mapRelsAux at h
    simp only [Except.ok.injEq] at h
    subst h
    exact Or.inl hp
  | cons g ft ih =>
    intro acc rels h p hp
    unfold mapRelsAux at h
    cases hmrf : mapRelationshipField model dmmf config cols g with
    | error e => rw [hmrf] at h; simp at h
    | ok o =>
      rw [hmrf] at h
      cases o with
      | none =>
        rcases ih h p hp with hmem | ⟨f, hf, hok, hname⟩
        · exact Or.inl hmem
        · exact Or.inr ⟨f, by simp [hf], hok, hname⟩
      | some r =>
        rcases ih h p hp with hmem | ⟨f, hf, hok, hname⟩
        · rcases mem_jsInsert hmem with rfl | ⟨hmem, _⟩
          · exact Or.inr ⟨g, by simp, hmrf, rfl⟩
          · exact Or.inl hmem
        · exact Or.inr ⟨f, by simp [hf], hok, hname⟩

theorem mapRelationshipField_excl_congr {model : Model} {dmmf : Document} {config : Config}
    {cols : List (String × ZeroTypeMapping)} {f : Field} {t : Model}
    (hfind : dmmf.models.find? (fun m => m.name == f.type) = some t)
    (hexc : config.excludeTables.contains t.name = false) :
    mapRelationshipField model dmmf config cols f =
      mapRelationshipField model dmmf { config with excludeTables := [] } cols f := by
  unfold mapRelationshipField
  rw [hfind]
  dsimp only
  rw [hexc]
  rfl

theorem implicitName_head (a b : String) (rel : Option String) :
    (getImplicitManyToManyTableName a b rel).toList.head? = some '_' := by
  unfold getImplicitManyToManyTableName
  by_cases h : truthy rel = true
  · simp only [h, if_true]
    rfl
  · have h' : truthy rel = false := Bool.eq_false_iff.mpr h
    simp only [h', Bool.false_eq_true, if_false]
    cases hlt : strLt b a <;> rfl

/-- C2: an input model whose name is listed in excludeTables (a valid model
name, which cannot start with an underscore) is absent from the returned
models list; on every kept model, a relational field whose target is excluded
contributes no relationship binding at all (and causes no error), while a
relational field whose target is kept gets exactly the descriptor that the
per-field resolver computes with an empty exclusion list (so it is unaffected
by the exclusions). -/
theorem c2_excluded_models_dropped (d : Document) (c : Config) :
    (∀ m ∈ d.models, m.name ∈ c.excludeTables → m.name.toList.head? ≠ some '_' →
      ∀ s, transformSchema d c = .ok s → ∀ om ∈ s.models, om.modelName ≠ m.name) ∧
    (∀ model ∈ d.models, model.name ∉ c.excludeTables →
      (model.fields.map (fun f => f.name)).Nodup →
      ∀ s, transformSchema d c = .ok s →
      ∃ om ∈ s.models, mapModel model d c = .ok om ∧
        ∀ f ∈ model.fields, truthy f.relationName = true →
        ∀ t, d.models.find? (fun mm => mm.name == f.type) = some t →
          (t.name ∈ c.excludeTables →
            Option.bind om.relationships (fun rels => jsLookup rels f.name) = none) ∧
          (t.name ∉ c.excludeTables →
            mapRelationshipField model d { c with excludeTables := [] }
              (buildColumns model c) f =
              .ok (Option.bind om.relationships (fun rels => jsLookup rels f.name)))) := by
  constructor
  · intro m hm hexcl hund s hs om hom
    obtain ⟨ms, hmsE, hsm, _⟩ := transformSchema_ok_parts hs
    rw [hsm] at hom
    rcases List.mem_append.mp hom with hom | hom
    · obtain ⟨model, hmodel, hok⟩ := mapModelsE_ok_mem hmsE om hom
      have hmn : om.modelName = model.name := (mapModel_ok_parts hok).2.1
      rw [hmn]
      intro heq
      have hcontains := (List.mem_filter.mp hmodel).2
      rw [heq, contains_true_of_mem hexcl] at hcontains
      simp at hcontains
    · obtain ⟨m1, _, _, _, _, t, _, _, _, _, _, heq⟩ := mem_implicitJoinTablesOf hom
      rw [heq]
      intro hname
      apply hund
      rw [← hname]
      exact implicitName_head m1.name t.name _
  · intro model hmodel hexcl hnd s hs
    have hmf : model ∈ filteredModelsOf d c := by
      rw [filteredModelsOf, List.mem_filter]
      exact ⟨hmodel, by rw [contains_false_of_not_mem hexcl]; rfl⟩
    obtain ⟨ms, hmsE, hsm, _⟩ := transformSchema_ok_parts hs
    obtain ⟨om, hom, hok⟩ := mapModelsE_forall_mem hmsE model hmf
    refine ⟨om, by rw [hsm]; exact List.mem_append_left _ hom, hok, ?_⟩
    intro f hf htruthy t hfind
    obtain ⟨_, _, _, ⟨rels, hrels, hrEq⟩, _, _⟩ := mapModel_ok_parts hok
    have hffilter : f ∈ model.fields.filter (fun g => truthy g.relationName) := by
      rw [List.mem_filter]
      exact ⟨hf, htruthy⟩
    have hndf : ((model.fields.filter (fun g => truthy g.relationName)).map
        (fun f => f.name)).Nodup :=
      ((List.filter_sublist _).map (fun f : Field => f.name)).nodup hnd
    obtain ⟨o, hmrf, hlook⟩ :=
      mapRelsAux_lookup hrels hndf f hffilter rfl
    have hbind : Option.bind om.relationships (fun rels => jsLookup rels f.name) = o := by
      rw [hrEq]
      cases hemp : rels.isEmpty with
      | true =>
        have : rels = [] := by
          cases rels with
          | nil => rfl
          | cons a b => simp [List.isEmpty] at hemp
        rw [this] at hlook
        simp only [if_true]
        rw [← hlook]
        rfl
      | false =>
        simp only [Bool.false_eq_true, if_false]
        exact hlook
    constructor
    · intro hexcT
      have : mapRelationshipField model d c (buildColumns model c) f = .ok none := by
        unfold mapRelationshipField
        rw [hfind]
        dsimp only
        rw [contains_true_of_mem hexcT]
        rfl
      rw [this] at hmrf
      simp only [Except.ok.injEq] at hmrf
      rw [hbind, ← hmrf]
    · intro hexcT
      rw [hbind]
      rw [← mapRelationshipField_excl_congr hfind (contains_false_of_not_mem hexcT)]
      exact hmrf

theorem implicitJoinDestField_length {m : Model} (h : hasGoodId m = true) :
    (implicitJoinDestField m).length = 1 := by
  unfold hasGoodId at h
  unfold implicitJoinDestField
  cases hfind : m.fields.find? (fun f => f.isId) with
  | none => rw [hfind] at h; simp at h
  | some f =>
    rw [hfind] at h
    simp only [hfind]
    have : (f.name == "") = false := by
      cases he : (f.name == "") with
      | false => rfl
      | true =>
        have h2 : (!(f.name == "")) = true := h
        rw [he] at h2
        simp at h2
    rw [this]
    rfl

theorem join_relLenOK {m1 m2 : Model} {rel : Option String} {config : Config}
    (h1 : hasGoodId m1 = true) (h2 : hasGoodId m2 = true) :
    ∀ p ∈ ((createImplicitManyToManyModel m1 m2 rel config).relationships.getD []),
      relLenOK p.2 = true := by
  intro p hp
  unfold createImplicitManyToManyModel at hp
  simp only [Option.getD_some] at hp
  have hA : hasGoodId (if strLt m2.name m1.name then m2 else m1) = true := by
    cases h : strLt m2.name m1.name <;> simp [h, h1, h2]
  have hB : hasGoodId (if strLt m2.name m1.name then m1 else m2) = true := by
    cases h : strLt m2.name m1.name <;> simp [h, h1, h2]
  rcases List.mem_cons.mp hp with rfl | hp
  · simp [relLenOK, implicitJoinDestField_length hA]
  · rcases List.mem_cons.mp hp with rfl | hp
    · simp [relLenOK, implicitJoinDestField_length hB]
    · simp at hp

theorem relLenOK_of_mapRelationshipField {model : Model} {dmmf : Document} {config : Config}
    {cols : List (String × ZeroTypeMapping)} {f : Field} {o : ZeroRelationship}
    (h : mapRelationshipField model dmmf config cols f = .ok (some o))
    (hwf : fieldKeysWF dmmf config model f = true) :
    relLenOK o = true := by
  unfold mapRelationshipField at h
  unfold fieldKeysWF at hwf
  cases hfind : dmmf.models.find? (fun m => m.name == f.type) with
  | none => rw [hfind] at h; simp at h
  | some t =>
    rw [hfind] at h hwf
    dsimp only at h hwf
    cases hexc : config.excludeTables.contains t.name with
    | true => rw [hexc] at h; simp at h
    | false =>
      rw [hexc] at h hwf
      simp only [Bool.false_eq_true, if_false] at h hwf
      cases hlist : f.isList with
      | true =>
        rw [hlist] at h
        simp only [if_true] at h
        rw [hlist] at hwf
        simp only [if_true] at hwf
        cases hback : t.fields.find? (fun g =>
            g.relationName == f.relationName && g.type == model.name) with
        | none => rw [hback] at hwf; simp at hwf
        | some b =>
          rw [hback] at h hwf
          simp only [Option.map_some', Option.getD_some] at h
          dsimp only at hwf
          cases hbl : b.isList with
          | true =>
            rw [hbl] at h hwf
            simp only [if_true] at h hwf
            simp only [Except.ok.injEq, Option.some.injEq] at h
            subst h
            simp [relLenOK]
          | false =>
            rw [hbl] at h hwf
            simp only [Bool.false_eq_true, if_false] at h hwf
            simp only [Except.ok.injEq, Option.some.injEq] at h
            subst h
            simp only [Bool.and_eq_true, beq_iff_eq, bne_iff_ne, ne_eq] at hwf
            simp [relLenOK, getFinalColumnNames, computeTargetFinalColumnNames, hwf.1, hwf.2]
      | false =>
        rw [hlist] at h hwf
        simp only [Bool.false_eq_true, if_false] at h hwf
        cases hfl : (f.relationFromFields.length != 0) with
        | true =>
          rw [hfl] at hwf
          simp only [if_true] at hwf
          simp only [hfl, if_true] at h
          simp only [Except.ok.injEq, Option.some.injEq] at h
          subst h
          have hne : f.relationFromFields.length ≠ 0 := by simpa using hfl
          simp only [beq_iff_eq] at hwf
          simp [relLenOK, getFinalColumnNames, computeTargetFinalColumnNames, hwf, hne]
        | false =>
          rw [hfl] at hwf
          simp only [Bool.false_eq_true, if_false] at hwf
          simp only [hfl, Bool.false_eq_true, if_false] at h
          cases hback : t.fields.find? (fun g =>
              g.relationName == f.relationName && g.type == model.name) with
          | none => rw [hback] at hwf; simp at hwf
          | some b =>
            rw [hback] at h hwf
            dsimp only at h hwf
            cases hbl : (b.relationFromFields.length != 0) with
            | false => rw [hbl] at hwf; simp at hwf
            | true =>
              rw [hbl] at h hwf
              simp only [if_true, Bool.true_and] at h hwf
              simp only [Except.ok.injEq, Option.some.injEq] at h
              subst h
              have hne : b.relationFromFields.length ≠ 0 := by simpa using hbl
              simp only [beq_iff_eq] at hwf
              simp [relLenOK, getFinalColumnNames, computeTargetFinalColumnNames, hwf, hne]

theorem not_eq_true_to_eq_false {b : Bool} (h : (!b) = true) : b = false := by
  cases b
  · rfl
  · simp at h

theorem and_true_parts {a b : Bool} (h : (a && b) = true) : a = true ∧ b = true := by
  cases a <;> cases b <;> simp_all

theorem keysWF_field {d : Document} {c : Config} {m : Model} {f : Field}
    (hwf : keysWF d c = true) (hm : m ∈ d.models)
    (hcont : c.excludeTables.contains m.name = false)
    (hf : f ∈ m.fields.filter (fun g => truthy g.relationName)) :
    fieldKeysWF d c m f = true := by
  unfold keysWF at hwf
  have h1 := List.all_eq_true.mp hwf m hm
  rw [hcont] at h1
  simp only [Bool.false_eq_true, if_false] at h1
  exact List.all_eq_true.mp h1 f hf

/-- C7, amended: on a well-formed input document (every list relational
field of a kept model has a back-reference whose declared foreign-key list
matches the length of the source model's non-empty primary key, every
non-list relational field declares matching non-empty local/target key lists
on one of the two relation sides, and implicit many-to-many participants have
identity fields), every relationship descriptor of every model of a
successfully returned transformed schema, join models and chain links
included, has local and target key lists of equal non-zero length; the
counterexample shows the invariant fails without well-formedness (a missing
back-reference yields an empty target key list next to a non-empty local
one). -/
theorem c7_relationship_key_lengths (d : Document) (c : Config)
    (hwf : keysWF d c = true) (s : TransformedSchema) (hs : transformSchema d c = .ok s) :
    ∀ om ∈ s.models, ∀ p ∈ (om.relationships.getD []), relLenOK p.2 = true := by
  intro om hom p hp
  obtain ⟨ms, hmsE, hsm, _⟩ := transformSchema_ok_parts hs
  rw [hsm] at hom
  rcases List.mem_append.mp hom with hom | hom
  · obtain ⟨m, hmf, hok⟩ := mapModelsE_ok_mem hmsE om hom
    obtain ⟨_, _, _, ⟨rels, hrels, hrEq⟩, _, _⟩ := mapModel_ok_parts hok
    rw [hrEq] at hp
    have hprels : p ∈ rels := by
      cases hemp : rels.isEmpty with
      | true => rw [hemp] at hp; simp at hp
      | false => rw [hemp] at hp; simpa using hp
    rcases mapRelsAux_mem hrels p hprels with hmem | ⟨f, hf, hmrf, _⟩
    · simp at hmem
    · have hm : m ∈ d.models := (List.mem_filter.mp hmf).1
      have hcont : c.excludeTables.contains m.name = false :=
        not_eq_true_to_eq_false (List.mem_filter.mp hmf).2
      exact relLenOK_of_mapRelationshipField hmrf (keysWF_field hwf hm hcont hf)
  · obtain ⟨model, hmf, field, hfield, hcond1, t, hfind, hexc, b, hback, hcond2, heq⟩ :=
      mem_implicitJoinTablesOf hom
    have hm : model ∈ d.models := (List.mem_filter.mp hmf).1
    have hcont : c.excludeTables.contains model.name = false :=
      not_eq_true_to_eq_false (List.mem_filter.mp hmf).2
    have hffilter : field ∈ model.fields.filter (fun g => truthy g.relationName) := by
      rw [List.mem_filter]
      exact ⟨hfield, (and_true_parts hcond1).1⟩
    have hfkwf := keysWF_field hwf hm hcont hffilter
    unfold fieldKeysWF at hfkwf
    rw [hfind] at hfkwf
    dsimp only at hfkwf
    rw [hexc] at hfkwf
    simp only [Bool.false_eq_true, if_false] at hfkwf
    rw [(and_true_parts hcond1).2] at hfkwf
    simp only [if_true] at hfkwf
    rw [hback] at hfkwf
    dsimp only at hfkwf
    rw [(and_true_parts hcond2).1] at hfkwf
    simp only [if_true] at hfkwf
    have hgood := and_true_parts hfkwf
    rw [heq] at hp
    exact join_relLenOK hgood.1 hgood.2 p hp

/-- C7, witness: the amended invariant evaluated on the concrete scenario
with a composite-key one-to-many pair and an implicit many-to-many pair. -/
theorem c7_witness :
    keysWF c7Doc cfgPlain = true ∧
    transformSchema c7Doc cfgPlain = .ok c7Out ∧
    (∀ om ∈ c7Out.models, ∀ p ∈ (om.relationships.getD []), relLenOK p.2 = true) :=
  ⟨by decide, by rfl,
   c7_relationship_key_lengths c7Doc cfgPlain (by decide) c7Out (by rfl)⟩

/-- C7, counterexample: on a document where a list relational field has no
back-reference at all, the transformation still succeeds and emits a
relationship whose target key list is empty while its local key list is not,
so the claimed invariant does not hold for every input. -/
theorem c7_counterexample :
    (transformSchema ⟨[⟨"A", none, [mkField "id" "String" true false true none none [] [],
        mkField "bs" "B" true true false none (some "R") [] []], none⟩,
      ⟨"B", none, [mkField "id" "String" true false true none none [] []], none⟩], []⟩
      cfgPlain).toOption.map
      (fun s => s.models.map (fun m => (m.modelName, m.relationships))) =
    some [("A", some [("bs", .direct .many ["id"] [] "bTable")]), ("B", none)] ∧
    relLenOK (.direct .many ["id"] [] "bTable") = false := by decide

/-- C2, witness: the claim applied to the concrete scenario excluding Post:
the excluded Post model is absent, and on the kept User model the posts field
(excluded target) has no binding while the profile field (kept target) is
unaffected. -/
theorem c2_witness :
    (∀ s, transformSchema c2Doc c2Cfg = .ok s → ∀ om ∈ s.models, om.modelName ≠ c2Post.name) ∧
    (∀ s, transformSchema c2Doc c2Cfg = .ok s →
      ∃ om ∈ s.models, mapModel c2User c2Doc c2Cfg = .ok om ∧
        ∀ f ∈ c2User.fields, truthy f.relationName = true →
        ∀ t, c2Doc.models.find? (fun mm => mm.name == f.type) = some t →
          (t.name ∈ c2Cfg.excludeTables →
            Option.bind om.relationships (fun rels => jsLookup rels f.name) = none) ∧
          (t.name ∉ c2Cfg.excludeTables →
            mapRelationshipField c2User c2Doc { c2Cfg with excludeTables := [] }
              (buildColumns c2User c2Cfg) f =
              .ok (Option.bind om.relationships (fun rels => jsLookup rels f.name)))) :=
  ⟨fun s hs => (c2_excluded_models_dropped c2Doc c2Cfg).1 c2Post (by decide) (by decide)
      (by decide) s hs,
   fun s hs => (c2_excluded_models_dropped c2Doc c2Cfg).2 c2User (by decide) (by decide)
      (by decide) s hs⟩

theorem getZeroTableName_eq (x : String) :
    getZeroTableName x = toCamelCase x ++ "Table" := rfl

theorem destSchemas_of_mapRelationshipField {model : Model} {dmmf : Document} {config : Config}
    {cols : List (String × ZeroTypeMapping)} {f : Field} {o : ZeroRelationship}
    (h : mapRelationshipField model dmmf config cols f = .ok (some o)) :
    ∀ ds ∈ destSchemas o, ∃ base, ds = getZeroTableName base ∧
      (base ∈ dmmf.models.map (fun m => m.name) ∨ base.toList.head? = some '_') := by
  unfold mapRelationshipField at h
  cases hfind : dmmf.models.find? (fun m => m.name == f.type) with
  | none => rw [hfind] at h; simp at h
  | some t =>
    rw [hfind] at h
    dsimp only at h
    have htmem : t.name ∈ dmmf.models.map (fun m => m.name) :=
      List.mem_map_of_mem (fun m => m.name) (List.mem_of_find?_eq_some hfind)
    cases hexc : config.excludeTables.contains t.name with
    | true => rw [hexc] at h; simp at h
    | false =>
      rw [hexc] at h
      simp only [Bool.false_eq_true, if_false] at h
      cases hlist : f.isList with
      | true =>
        rw [hlist] at h
        simp only [if_true] at h
        cases hback : t.fields.find? (fun g =>
            g.relationName == f.relationName && g.type == model.name) with
        | none =>
          rw [hback] at h
          simp only [Option.map_none', Option.getD_none, Bool.false_eq_true, if_false] at h
          simp only [Except.ok.injEq, Option.some.injEq] at h
          subst h
          intro ds hds
          simp only [destSchemas, List.mem_singleton] at hds
          subst hds
          exact ⟨t.name, rfl, Or.inl htmem⟩
        | some b =>
          rw [hback] at h
          simp only [Option.map_some', Option.getD_some] at h
          cases hbl : b.isList with
          | true =>
            rw [hbl] at h
            simp only [if_true] at h
            simp only [Except.ok.injEq, Option.some.injEq] at h
            subst h
            intro ds hds
            simp only [destSchemas, List.map_cons, List.map_nil] at hds
            rcases List.mem_cons.mp hds with rfl | hds
            · exact ⟨getImplicitManyToManyTableName model.name t.name f.relationName, rfl,
                Or.inr (implicitName_head _ _ _)⟩
            · rcases List.mem_cons.mp hds with rfl | hds
              · exact ⟨t.name, rfl, Or.inl htmem⟩
              · simp at hds
          | false =>
            rw [hbl] at h
            simp only [Bool.false_eq_true, if_false] at h
            simp only [Except.ok.injEq, Option.some.injEq] at h
            subst h
            intro ds hds
            simp only [destSchemas, List.mem_singleton] at hds
            subst hds
            exact ⟨t.name, rfl, Or.inl htmem⟩
      | false =>
        rw [hlist] at h
        simp only [Bool.false_eq_true, if_false] at h
        simp only [Except.ok.injEq, Option.some.injEq] at h
        subst h
        intro ds hds
        simp only [destSchemas, List.mem_singleton] at hds
        subst hds
        exact ⟨t.name, rfl, Or.inl htmem⟩

theorem join_destSchemas {m1 m2 : Model} {rel : Option String} {config : Config} :
    ∀ p ∈ ((createImplicitManyToManyModel m1 m2 rel config).relationships.getD []),
      ∀ ds ∈ destSchemas p.2,
        ds = getZeroTableName m1.name ∨ ds = getZeroTableName m2.name := by
  intro p hp ds hds
  unfold createImplicitManyToManyModel at hp
  simp only [Option.getD_some] at hp
  rcases List.mem_cons.mp hp with rfl | hp
  · simp only [destSchemas, List.mem_singleton] at hds
    subst hds
    cases h : strLt m2.name m1.name <;> simp [h]
  · rcases List.mem_cons.mp hp with rfl | hp
    · simp only [destSchemas, List.mem_singleton] at hds
      subst hds
      cases h : strLt m2.name m1.name <;> simp [h]
    · simp at hp

/-- C10: in every successfully returned transformed schema, every model's
zeroTableName is the camel-case conversion of its model (or synthesized
join-table) name with the suffix "Table", and every destSchema identifier of
every relationship descriptor is the camel-case conversion (with "Table"
appended) of either a model name of the input document or an
underscore-prefixed join-table name — for every configuration, i.e.
regardless of the remapTablesToCamelCase flag. -/
theorem c10_schema_identifiers_camel_cased (d : Document) (c : Config) (s : TransformedSchema)
    (hs : transformSchema d c = .ok s) :
    (∀ om ∈ s.models, om.zeroTableName = toCamelCase om.modelName ++ "Table") ∧
    (∀ om ∈ s.models, ∀ p ∈ (om.relationships.getD []), ∀ ds ∈ destSchemas p.2,
      ∃ base, ds = toCamelCase base ++ "Table" ∧
        (base ∈ d.models.map (fun m => m.name) ∨ base.toList.head? = some '_')) := by
  obtain ⟨ms, hmsE, hsm, _⟩ := transformSchema_ok_parts hs
  constructor
  · intro om hom
    rw [hsm] at hom
    rcases List.mem_append.mp hom with hom | hom
    · obtain ⟨m, _, hok⟩ := mapModelsE_ok_mem hmsE om hom
      obtain ⟨_, hmn, hzt, _, _, _⟩ := mapModel_ok_parts hok
      rw [hzt, hmn]
      rfl
    · obtain ⟨_, _, _, _, _, _, _, _, _, _, _, heq⟩ := mem_implicitJoinTablesOf hom
      rw [heq]
      rfl
  · intro om hom p hp ds hds
    rw [hsm] at hom
    rcases List.mem_append.mp hom with hom | hom
    · obtain ⟨m, _, hok⟩ := mapModelsE_ok_mem hmsE om hom
      obtain ⟨_, _, _, ⟨rels, hrels, hrEq⟩, _, _⟩ := mapModel_ok_parts hok
      rw [hrEq] at hp
      have hprels : p ∈ rels := by
        cases hemp : rels.isEmpty with
        | true => rw [hemp] at hp; simp at hp
        | false => rw [hemp] at hp; simpa using hp
      rcases mapRelsAux_mem hrels p hprels with hmem | ⟨f, _, hmrf, _⟩
      · simp at hmem
      · obtain ⟨base, hb1, hb2⟩ := destSchemas_of_mapRelationshipField hmrf ds hds
        exact ⟨base, by rw [hb1]; rfl, hb2⟩
    · obtain ⟨model, hmf, _, _, _, t, hfind, _, _, _, _, heq⟩ := mem_implicitJoinTablesOf hom
      rw [heq] at hp
      rcases join_destSchemas p hp ds hds with hd | hd
      · refine ⟨model.name, by rw [hd]; rfl, Or.inl ?_⟩
        exact List.mem_map_of_mem (fun m => m.name) (List.mem_filter.mp hmf).1
      · refine ⟨t.name, by rw [hd]; rfl, Or.inl ?_⟩
        exact List.mem_map_of_mem (fun m => m.name) (List.mem_of_find?_eq_some hfind)

/-- C10, witness: the identifier invariant evaluated on the concrete
scenario document (with table remapping off, showing the camel-casing is
applied regardless). -/
theorem c10_witness :
    transformSchema c10Doc cfgPlain = .ok c10Out ∧
    (∀ om ∈ c10Out.models, om.zeroTableName = toCamelCase om.modelName ++ "Table") :=
  ⟨by rfl,
   (c10_schema_identifiers_camel_cased c10Doc cfgPlain c10Out (by rfl)).1⟩

/-- C3, amended: every input model that is not excluded by configuration and
has neither a declared composite primary key nor an identity-flagged field
makes transformSchema fail fatally (an excluded such model is filtered out
first and causes no failure, which the counterexample exhibits); conversely,
every model of a successfully returned transformed schema has a non-empty
primary key list. -/
theorem c3_missing_primary_key (d : Document) (c : Config) :
    (∀ m ∈ d.models, m.name ∉ c.excludeTables → m.primaryKey = none →
      (∀ f ∈ m.fields, f.isId = false) → isOkB (transformSchema d c) = false) ∧
    (∀ s, transformSchema d c = .ok s → ∀ om ∈ s.models, om.primaryKey ≠ []) :=
  ⟨fun _ hm hexcl hpk hid => transform_fails_of_missing_pk hm hexcl hpk hid,
   fun _ hs => pk_nonempty_of_ok hs⟩

/-- C3, witness: the amended claim applied to the concrete primary-key-less
Widget model, not excluded (the transformation fails) and to the excluding
configuration (every returned model has a non-empty key). -/
theorem c3_witness :
    isOkB (transformSchema c3Doc cfgPlain) = false ∧
    (∀ s, transformSchema c3Doc c3Excl = .ok s → ∀ om ∈ s.models, om.primaryKey ≠ []) :=
  ⟨(c3_missing_primary_key c3Doc cfgPlain).1 c3NoPk (by decide) (by decide) (by decide)
      (by decide),
   (c3_missing_primary_key c3Doc c3Excl).2⟩

/-- C6, amended: an implicit many-to-many relation (list field with a
list-typed back-reference) in which some participant has neither an identity
field nor a declared composite primary key makes the transformation fail
fatally, provided that participant is not excluded by configuration (the
counterexample shows the excluded case succeeds: the relation is dropped
instead). -/
theorem c6_missing_identity_fatal (d : Document) (c : Config) (m t p : Model) (f : Field)
    (_hm : m ∈ d.models) (_hf : f ∈ m.fields) (_hrel : truthy f.relationName = true)
    (_hlist : f.isList = true)
    (_ht : d.models.find? (fun mm => mm.name == f.type) = some t)
    (_hback : ∃ b, t.fields.find? (fun g =>
      g.relationName == f.relationName && g.type == m.name) = some b ∧ b.isList = true)
    (_hp : p = m ∨ p = t) (hpmem : p ∈ d.models) (hpexcl : p.name ∉ c.excludeTables)
    (hppk : p.primaryKey = none) (hpid : ∀ g ∈ p.fields, g.isId = false) :
    isOkB (transformSchema d c) = false :=
  transform_fails_of_missing_pk hpmem hpexcl hppk hpid

/-- C6, witness: the amended claim applied to the Alpha and Beta models,
where Beta participates in an implicit many-to-many relation and has neither
an identity field nor a composite key and is not excluded. -/
theorem c6_witness : isOkB (transformSchema c6Doc cfgPlain) = false :=
  c6_missing_identity_fatal c6Doc cfgPlain c6A c6B c6B
    (mkField "betas" "Beta" true true false none (some "AB") [] [])
    (by decide) (by decide) (by decide) (by decide) (by decide)
    ⟨mkField "alphas" "Alpha" true true false none (some "AB") [] [], by decide, by decide⟩
    (Or.inr rfl) (by decide) (by decide) (by decide) (by decide)

/-- C1, witness: the precedence theorem applied to the senderID field of the
Message scenario (explicit database-mapped name, no remapping). -/
theorem c1_witness :
    ∃ cm : ZeroTypeMapping,
      jsLookup (buildColumns c1Msg cfgPlain) c1SenderID.name = some cm ∧
      (∀ r, mapModel c1Msg ⟨[c1Msg], []⟩ cfgPlain = Except.ok r →
        jsLookup r.columns c1SenderID.name = some cm) ∧
      (truthy c1SenderID.dbName = true →
        cm.columnName = c1SenderID.name ∧ cm.originalColumnName = c1SenderID.dbName) ∧
      (truthy c1SenderID.dbName = false → cfgPlain.remapColumnsToCamelCase = true →
        toCamelCase c1SenderID.name ≠ c1SenderID.name →
        cm.columnName = toCamelCase c1SenderID.name ∧ cm.originalColumnName = some c1SenderID.name) ∧
      (truthy c1SenderID.dbName = false →
        (cfgPlain.remapColumnsToCamelCase = false ∨ toCamelCase c1SenderID.name = c1SenderID.name) →
        cm.columnName = c1SenderID.name ∧ cm.originalColumnName = none) :=
  c1_column_name_precedence c1Msg ⟨[c1Msg], []⟩ cfgPlain c1SenderID
    (by decide) (by decide) (by decide) (by decide)

/-- C9, counterexample: the conversion is not idempotent on every string:
a_b_c converts to aBC, and converting again gives aBc. -/
theorem c9_not_idempotent :
    toCamelCase (toCamelCase "a_b_c") ≠ toCamelCase "a_b_c" ∧
    toCamelCase "a_b_c" = "aBC" ∧ toCamelCase "aBC" = "aBc" := by decide

/-- C5, counterexample: for participants Post and Category, both with
integer identities and no explicit relation name, the synthesized join
model's table name is _CategoryToPost (lexicographic order puts Category
first, not Post as the claim's example says) and both join columns are typed
string(), not number(). -/
theorem c5_counterexample :
    c5Join.tableName = "_CategoryToPost" ∧ c5Join.tableName ≠ "_PostToCategory" ∧
    (jsLookup c5Join.columns "A").map (fun cm => cm.type) = some "string()" ∧
    (jsLookup c5Join.columns "B").map (fun cm => cm.type) = some "string()" ∧
    (c5Post.fields.find? (fun f => f.isId)).map (fun f => f.type) = some "Int" ∧
    (c5Categ.fields.find? (fun f => f.isId)).map (fun f => f.type) = some "Int" ∧
    mapPrismaTypeToZero (mkField "id" "Int" true false true none none [] []) = ⟨"number()", false⟩ ∧
    "string()" ≠ "number()" := by decide

/-- C5, amended: with no explicit relation name the synthesized join model's
model name is the underscore-prefixed concatenation of the two model names in
lexicographic order joined by "To", its resolved table name is the camel-case
form of that name exactly when table remapping is enabled, and its two
columns A and B are always typed string(), regardless of the participants'
identity field types. -/
theorem c5_implicit_join_shape (m1 m2 : Model) (config : Config) :
    (createImplicitManyToManyModel m1 m2 none config).modelName =
      (if strLt m2.name m1.name then "_" ++ m2.name ++ "To" ++ m1.name
       else "_" ++ m1.name ++ "To" ++ m2.name) ∧
    (createImplicitManyToManyModel m1 m2 none config).tableName =
      (if config.remapTablesToCamelCase then
        toCamelCase ((createImplicitManyToManyModel m1 m2 none config).modelName)
       else (createImplicitManyToManyModel m1 m2 none config).modelName) ∧
    (jsLookup (createImplicitManyToManyModel m1 m2 none config).columns "A").map (fun cm => cm.type) =
      some "string()" ∧
    (jsLookup (createImplicitManyToManyModel m1 m2 none config).columns "B").map (fun cm => cm.type) =
      some "string()" := by
  refine ⟨?_, ?_, rfl, rfl⟩
  · cases h : strLt m2.name m1.name <;>
      simp [createImplicitManyToManyModel, getImplicitManyToManyTableName, truthy, h]
  · cases h : config.remapTablesToCamelCase <;>
      simp [createImplicitManyToManyModel, getTableName, h]

/-- C8, counterexample: for the User model of the scenario with column
remapping enabled, the transformed model's column map is keyed by the
original field names id and first_name, and has no key firstName. -/
theorem c8_counterexample :
    (transformSchema c8Doc cfgCols).toOption.map
      (fun s => s.models.map (fun m => m.columns.map Prod.fst)) = some [["id", "first_name"]] ∧
    (transformSchema c8Doc cfgCols).toOption.map
      (fun s => s.models.map (fun m => jsLookup m.columns "firstName")) =
      some [(none : Option ZeroTypeMapping)] ∧
    ["id", "first_name"] ≠ ["firstName", "id"] := by decide

/-- C8, amended: the column map of the scenario is keyed by the original
field names; the first_name entry resolves to column name firstName with
original column name first_name recorded, the id entry resolves to id with no
override, and both are typed string(). -/
theorem c8_column_map_scenario :
    (transformSchema c8Doc cfgCols).toOption.map (fun s => s.models.map (fun m => m.columns)) =
    some [[("id", ⟨"string()", false, "id", none⟩),
           ("first_name", ⟨"string()", false, "firstName", some "first_name"⟩)]] := by decide

/-- C4, evaluation at the failing input: on a self-referential relation
whose list side (children) is declared before its scalar side (parent), the
back-reference lookup finds the children field itself, so the one-to-many
relation is mis-resolved as a many-to-many chain through a join table
(_treeTable) that is never synthesized. -/
theorem c4_backreference_self :
    (c4Cat.fields.find? (fun f => f.relationName == some "Tree" && f.type == "Category")).map
      (fun f => f.name) = some "children" ∧
    (transformSchema c4Doc cfgPlain).toOption.map
      (fun s => s.models.map (fun m => (m.modelName, m.relationships))) =
      some [("Category",
        some [("children", .chain .many [⟨["id"], ["A"], "_treeTable"⟩, ⟨["B"], ["id"], "categoryTable"⟩]),
              ("parent", .direct .one ["parentId"] ["id"] "categoryTable")])] := by decide

/-- C3, counterexample: a model with neither a declared composite primary
key nor an identity field does not make transformSchema fail when that model
is excluded by configuration. -/
theorem c3_counterexample :
    c3NoPk ∈ c3Doc.models ∧ c3NoPk.primaryKey = none ∧
    (∀ f ∈ c3NoPk.fields, f.isId = false) ∧
    isOkB (transformSchema c3Doc c3Excl) = true := by decide

theorem toNat_ofNat_small {n : Nat} (h : n < 128) : (Char.ofNat n).toNat = n := by
  have hv : n.isValidChar := Or.inl (by omega)
  unfold Char.ofNat
  rw [dif_pos hv]
  rfl

theorem isUp_toNat {c : Char} (h : isUp c = true) : 65 ≤ c.toNat ∧ c.toNat ≤ 90 := by
  unfold isUp at h
  obtain ⟨h1, h2⟩ := and_true_parts h
  exact ⟨of_decide_eq_true h1, of_decide_eq_true h2⟩

theorem isLow_toNat {c : Char} (h : isLow c = true) : 97 ≤ c.toNat ∧ c.toNat ≤ 122 := by
  unfold isLow at h
  obtain ⟨h1, h2⟩ := and_true_parts h
  exact ⟨of_decide_eq_true h1, of_decide_eq_true h2⟩

theorem low_toNat_of_up {c : Char} (h : isUp c = true) : (low c).toNat = c.toNat + 32 := by
  simp only [low, h, if_true]
  exact toNat_ofNat_small (by have := (isUp_toNat h).2; omega)

theorem up_toNat_of_low {c : Char} (h : isLow c = true) : (up c).toNat = c.toNat - 32 := by
  simp only [up, h, if_true]
  exact toNat_ofNat_small (by have := (isLow_toNat h).2; omega)

theorem low_eq_of_not_up {c : Char} (h : isUp c = false) : low c = c := by
  simp [low, h]

theorem up_eq_of_not_low {c : Char} (h : isLow c = false) : up c = c := by
  simp [up, h]

theorem isUp_low (c : Char) : isUp (low c) = false := by
  cases h : isUp c with
  | false => rw [low_eq_of_not_up h]; exact h
  | true =>
    have ht := low_toNat_of_up h
    have hb := isUp_toNat h
    unfold isUp
    rw [ht]
    have h2 : ¬ (c.toNat + 32 ≤ 90) := by omega
    simp [h2]

theorem isLow_low_of_up {c : Char} (h : isUp c = true) : isLow (low c) = true := by
  have ht := low_toNat_of_up h
  have hb := isUp_toNat h
  unfold isLow
  rw [ht]
  have h1 : 97 ≤ c.toNat + 32 := by omega
  have h2 : c.toNat + 32 ≤ 122 := by omega
  simp [h1, h2]

theorem isUp_up_of_low {c : Char} (h : isLow c = true) : isUp (up c) = true := by
  have ht := up_toNat_of_low h
  have hb := isLow_toNat h
  unfold isUp
  rw [ht]
  have h1 : 65 ≤ c.toNat - 32 := by omega
  have h2 : c.toNat - 32 ≤ 90 := by omega
  simp [h1, h2]

theorem isLow_false_of_up {c : Char} (h : isUp c = true) : isLow c = false := by
  have hb := isUp_toNat h
  unfold isLow
  have h1 : ¬ (97 ≤ c.toNat) := by omega
  simp [h1]

theorem isAlnum_low {c : Char} (h : isAlnum c = true) : isAlnum (low c) = true := by
  cases hu : isUp c with
  | false => rw [low_eq_of_not_up hu]; exact h
  | true => simp [isAlnum, isLow_low_of_up hu]

theorem isAlnum_up {c : Char} (h : isAlnum c = true) : isAlnum (up c) = true := by
  cases hl : isLow c with
  | false => rw [up_eq_of_not_low hl]; exact h
  | true => simp [isAlnum, isUp_up_of_low hl]

theorem camelGo_all_alnum :
    ∀ (l : List Char) (st pe : Bool) (pr : Option Char),
      ∀ c ∈ camelGo st pe pr l, isAlnum c = true := by
  intro l
  induction l with
  | nil => intro st pe pr c hc; simp [camelGo] at hc
  | cons a t ih =>
    intro st pe pr c hc
    unfold camelGo at hc
    by_cases ha : isAlnum a = true
    · rw [if_pos ha] at hc
      rcases List.mem_cons.mp hc with rfl | hc
      · cases hb : (st && (pe || ((pr.map (fun p => (isLow p || isDig p) && isUp a)).getD false)))
        · simpa using isAlnum_low ha
        · simpa using isAlnum_up ha
      · exact ih true false (some a) c hc
    · rw [if_neg ha] at hc
      exact ih st true (some a) c hc

theorem camelGo_head_not_up :
    ∀ (l : List Char) (pe : Bool) (pr : Option Char) {c : Char},
      (camelGo false pe pr l).head? = some c → isUp c = false := by
  intro l
  induction l with
  | nil => intro pe pr c hc; simp [camelGo] at hc
  | cons a t ih =>
    intro pe pr c hc
    unfold camelGo at hc
    by_cases ha : isAlnum a = true
    · rw [if_pos ha] at hc
      simp only [Bool.false_and, Bool.false_eq_true, if_false, List.head?_cons,
        Option.some.injEq] at hc
      rw [← hc]
      exact isUp_low a
    · rw [if_neg ha] at hc
      exact ih true (some a) hc

theorem camelGo_fix :
    ∀ (l : List Char) (p : Char), camelFix p l = true → camelGo true false (some p) l = l := by
  intro l
  induction l with
  | nil => intro p _; rfl
  | cons c cs ih =>
    intro p h
    unfold camelFix at h
    obtain ⟨h12, h3⟩ := and_true_parts h
    obtain ⟨h1, h2⟩ := and_true_parts h12
    unfold camelGo
    rw [if_pos h1]
    have htail : camelGo true false (some c) cs = cs := ih c h3
    rw [htail]
    simp only [Option.map_some', Option.getD_some, Bool.true_and, Bool.false_or]
    cases hu : isUp c with
    | true =>
      have hpd : (isLow p || isDig p) = true := by
        rw [hu] at h2
        simpa using h2
      rw [hpd]
      rw [if_pos (by decide : ((true : Bool) && true) = true)]
      rw [up_eq_of_not_low (isLow_false_of_up hu)]
    | false =>
      rw [if_neg (by simp : ¬ (((isLow p || isDig p) && false) = true))]
      rw [low_eq_of_not_up hu]

theorem camelGo_fix0 : ∀ (l : List Char), camelFix0 l = true → camelGo false false none l = l := by
  intro l h
  cases l with
  | nil => rfl
  | cons c cs =>
    unfold camelFix0 at h
    obtain ⟨h12, h3⟩ := and_true_parts h
    obtain ⟨h1, h2⟩ := and_true_parts h12
    unfold camelGo
    rw [if_pos h1]
    rw [camelGo_fix cs c h3]
    simp only [Bool.false_and, Bool.false_eq_true, if_false]
    rw [low_eq_of_not_up (not_eq_true_to_eq_false h2)]

theorem camelFix_of_conds :
    ∀ (l : List Char) (p : Char), (∀ c ∈ l, isAlnum c = true) → isAlnum p = true →
      noAdjUp (p :: l) = true → camelFix p l = true := by
  intro l
  induction l with
  | nil => intro p _ _ _; rfl
  | cons c cs ih =>
    intro p hall hp hadj
    unfold noAdjUp at hadj
    obtain ⟨hnu, hadj'⟩ := and_true_parts hadj
    have hc : isAlnum c = true := hall c (by simp)
    have hcs : ∀ x ∈ cs, isAlnum x = true := fun x hx => hall x (by simp [hx])
    unfold camelFix
    rw [hc, ih c hcs hc hadj']
    simp only [Bool.true_and, Bool.and_true]
    cases hu : isUp c with
    | false => simp
    | true =>
      have hpu : isUp p = false := by
        rw [hu] at hnu
        simp only [Bool.and_true] at hnu
        exact not_eq_true_to_eq_false hnu
      unfold isAlnum at hp
      rw [hpu] at hp
      simp only [Bool.or_false] at hp
      simp only [Bool.not_true, Bool.false_or]
      exact hp

theorem camelFix0_of_conds :
    ∀ (l : List Char), (∀ c ∈ l, isAlnum c = true) → noAdjUp l = true →
      (∀ c, l.head? = some c → isUp c = false) → camelFix0 l = true := by
  intro l hall hadj hhead
  cases l with
  | nil => rfl
  | cons c cs =>
    have hc : isAlnum c = true := hall c (by simp)
    have hcs : ∀ x ∈ cs, isAlnum x = true := fun x hx => hall x (by simp [hx])
    show (isAlnum c && !isUp c && camelFix c cs) = true
    rw [hc, hhead c rfl, camelFix_of_conds cs c hcs hc hadj]
    rfl

theorem noAdjUp_tail : ∀ (x : Char) (l : List Char), noAdjUp (x :: l) = true → noAdjUp l = true := by
  intro x l h
  cases l with
  | nil => rfl
  | cons y t =>
    unfold noAdjUp at h
    exact (and_true_parts h).2

theorem noAdjUp_append_right : ∀ (a b : List Char), noAdjUp (a ++ b) = true → noAdjUp b = true := by
  intro a
  induction a with
  | nil => intro b h; exact h
  | cons x t ih => intro b h; exact ih b (noAdjUp_tail x (t ++ b) h)

theorem takeWhile_append_all {p : Char → Bool} :
    ∀ {a b : List Char}, (∀ c ∈ a, p c = true) → (a ++ b).takeWhile p = a ++ b.takeWhile p := by
  intro a
  induction a with
  | nil => intro b _; rfl
  | cons x t ih =>
    intro b h
    have hx : p x = true := h x (by simp)
    simp only [List.cons_append, List.takeWhile_cons_of_pos hx, List.cons.injEq, true_and]
    exact ih (fun c hc => h c (by simp [hc]))

theorem takeWhile_alnum_nil {l : List Char} (h : ∀ c ∈ l, isAlnum c = true) :
    l.takeWhile (fun c => c = '_') = [] := by
  cases l with
  | nil => rfl
  | cons c t =>
    have hc : isAlnum c = true := h c (by simp)
    have hne : ¬ (c = '_') := by
      intro heq
      rw [heq] at hc
      simp [isAlnum, isLow, isUp, isDig] at hc
    simp [List.takeWhile_cons, hne]

/-- C9, amended: modelled from the spec's description of the change-case
conversion (which is not part of the provided sources), the underscore-prefix
preserving conversion is total (the empty string maps to the empty string)
and preserves any leading run of underscores verbatim (underscore_profile
style names convert as in the spec example); applying it twice equals
applying it once for every string whose converted form has no two adjacent
uppercase letters — but not for every string, as the counterexample a_b_c
shows (single-letter words capitalize to adjacent uppercase letters, which a
second pass re-splits differently). -/
theorem c9_camelcase_conversion (s : String)
    (h : noAdjUp (toCamelCase s).toList = true) :
    toCamelCase "" = "" ∧
    (toCamelCase s).toList.takeWhile (fun c => c = '_') =
      s.toList.takeWhile (fun c => c = '_') ∧
    toCamelCase "_user_profile" = "_userProfile" ∧
    toCamelCase (toCamelCase s) = toCamelCase s := by
  have hkey : (toCamelCase s).toList =
      s.toList.takeWhile (fun c => c = '_') ++
        camelList (s.toList.drop (s.toList.takeWhile (fun c => c = '_')).length) := rfl
  have hallout : ∀ c ∈ camelList (s.toList.drop
      (s.toList.takeWhile (fun c => c = '_')).length), isAlnum c = true :=
    fun c hc => camelGo_all_alnum _ _ _ _ c hc
  have hpre : (toCamelCase s).toList.takeWhile (fun c => c = '_') =
      s.toList.takeWhile (fun c => c = '_') := by
    rw [hkey]
    rw [takeWhile_append_all (fun c hc => List.mem_takeWhile_imp hc)]
    rw [takeWhile_alnum_nil hallout, List.append_nil]
  refine ⟨rfl, hpre, by decide, ?_⟩
  have hrest : (toCamelCase s).toList.drop
      ((toCamelCase s).toList.takeWhile (fun c => c = '_')).length =
      camelList (s.toList.drop (s.toList.takeWhile (fun c => c = '_')).length) := by
    rw [hpre, hkey]
    exact List.drop_left _ _
  have hfixed : camelList (camelList (s.toList.drop
      (s.toList.takeWhile (fun c => c = '_')).length)) =
      camelList (s.toList.drop (s.toList.takeWhile (fun c => c = '_')).length) := by
    apply camelGo_fix0
    apply camelFix0_of_conds _ hallout
    · rw [hkey] at h
      exact noAdjUp_append_right _ _ h
    · intro c hc
      exact camelGo_head_not_up _ _ _ hc
  apply String.ext
  show (toCamelCase (toCamelCase s)).toList.asString.data = (toCamelCase s).toList.asString.data
  have hfinal : (toCamelCase (toCamelCase s)).toList =
      (toCamelCase s).toList.takeWhile (fun c => c = '_') ++
        camelList ((toCamelCase s).toList.drop
          ((toCamelCase s).toList.takeWhile (fun c => c = '_')).length) := rfl
  rw [hfinal, hrest, hfixed, hpre, hkey]

/-- C9, witness: the amended conversion properties applied to the
underscore-prefixed spec example, whose converted form has no adjacent
uppercase letters. -/
theorem c9_witness :
    toCamelCase "" = "" ∧
    (toCamelCase "_user_profile").toList.takeWhile (fun c => c = '_') =
      "_user_profile".toList.takeWhile (fun c => c = '_') ∧
    toCamelCase "_user_profile" = "_userProfile" ∧
    toCamelCase (toCamelCase "_user_profile") = toCamelCase "_user_profile" :=
  c9_camelcase_conversion "_user_profile" (by decide)

/-- C6, counterexample: an implicit many-to-many relation whose
identity-less participant (Beta) is excluded by configuration does not make
the transformation fail. -/
theorem c6_counterexample :
    (c6A.fields.find? (fun f => f.name == "betas")).map
      (fun f => (truthy f.relationName, f.isList)) = some (true, true) ∧
    (c6B.fields.find? (fun f => f.relationName == some "AB" && f.type == "Alpha")).map
      (fun f => f.isList) = some true ∧
    c6B.primaryKey = none ∧ (∀ f ∈ c6B.fields, f.isId = false) ∧
    isOkB (transformSchema c6Doc c6Excl) = true := by decide

end PGZero
